import Mathlib

/-!
Verification of the WebM container repair-and-validate engine of this repository.

The development shallow-embeds three source components:

* `WebmFix` — the JavaScript patcher embedded in `app/render.py`
  (`WEBM_FIX_INIT_SCRIPT`): vint codec, element scanner, duration/cues
  patcher, and the Blob override that consumes the patcher result.
* `RenderPy` — the Python helpers of `app/render.py`
  (`_read_vint_py`, `_parse_element_py`, `_parse_children_py`,
  `_scan_webm_py`, `_validate_webm`).
* `VerifyWebm` — `tools/verify_webm.py` (`_read_vint`, `_read_element`,
  `inspect_webm`, `verify_webm`).

Buffers are lists of natural numbers; a byte of a `Uint8Array` or a
`memoryview` is a natural number below 256 (general theorems that need this
carry it as a hypothesis).  JavaScript `BigInt` / `Number` arithmetic and
Python integers are modelled by `Nat`/`Int`; machine floats are modelled by
`FloatVal` below, which carries the exact rational value of a finite float
(multiplication of floats is modelled exactly, without rounding; none of the
verified statements depends on rounding at the representable boundaries).
Fallible code returns `Except String`; the string payloads keep the static
part of the source message and elide interpolated values.
-/

set_option maxRecDepth 4000

deriving instance DecidableEq for Except

attribute [local semireducible] Rat.mul Rat.add Rat.inv Rat.sub

/-- Big-endian value of a byte list (the integer formed from all bytes). -/
def beNat (bs : List Nat) : Nat := bs.foldl (fun a b => 256 * a + b) 0

/-- Model of JavaScript `TypedArray.slice(s, e)` and of Python
`memoryview[s:e]`: the clamped half-open byte range. -/
def sliceBytes (bytes : List Nat) (s e : Nat) : List Nat := (bytes.drop s).take (e - s)

/-- Shared model of the leading-marker-bit scan that opens each of the three
vint readers (`readVint` in the init script, `_read_vint_py` in render.py and
`_read_vint` in verify_webm.py run the same loop): starting from
`length = 1, mask = 0x80`, shift the mask down while the bit is clear and
`length <= 8`.  Returns the final `(length, mask)` pair.  The fuel `9` covers
the at most eight iterations of the loop. -/
def vintFindGo (first : Nat) : Nat → Nat → Nat → Nat × Nat
  | 0, length, mask => (length, mask)
  | fuel + 1, length, mask =>
    if length ≤ 8 ∧ first &&& mask = 0 then vintFindGo first fuel (length + 1) (mask >>> 1)
    else (length, mask)

def vintFind (first : Nat) : Nat × Nat := vintFindGo first 9 1 0x80

/-- Shared model of the payload loop of `readVint` / `_read_vint_py`
(`value = (value << 8) | data[offset + i]`); an out-of-range byte access
throws (JavaScript: `BigInt(undefined)`, Python: `IndexError`). -/
def readFoldBE (bytes : List Nat) : Nat → Nat → Nat → Except String Nat
  | 0, _, value => .ok value
  | count + 1, idx, value =>
    match bytes.get? idx with
    | none => .error "out of range"
    | some b => readFoldBE bytes count (idx + 1) ((value <<< 8) ||| b)

/-! ### Machine floats

A finite IEEE-754 float is an exact rational; `FloatVal` carries that value
and the three non-finite shapes. -/

inductive FloatVal where
  | finite (q : ℚ)
  | inf
  | ninf
  | nan
deriving DecidableEq, Repr

/-- Bit length of a natural number (fuel-based so that the kernel can
evaluate it). -/
def bitLenGo : Nat → Nat → Nat
  | 0, _ => 0
  | fuel + 1, n => if n = 0 then 0 else bitLenGo fuel (n >>> 1) + 1

def bitLen (n : Nat) : Nat := bitLenGo n n

/-- `2 ^ e` over ℚ for an integer exponent, written without `zpow` so that
the kernel can evaluate it. -/
def qPow2 (e : Int) : ℚ :=
  if 0 ≤ e then ((2 ^ e.toNat : Nat) : ℚ) else 1 / ((2 ^ (-e).toNat : Nat) : ℚ)

/-- Floor of the base-2 logarithm of a positive rational: the bit lengths of
numerator and denominator give a candidate within one, fixed up by direct
comparison. -/
def qLog2 (q : ℚ) : Int :=
  let e0 : Int := (bitLen q.num.toNat : Int) - (bitLen q.den : Int)
  if q < qPow2 e0 then e0 - 1 else if qPow2 (e0 + 1) ≤ q then e0 + 1 else e0

/-- Exact decoding of an IEEE-754 bit pattern with `ebits` exponent bits and
`mbits` mantissa bits (8/23 for `>f`, 11/52 for `>d`). -/
def decodeFloatBits (ebits mbits bits : Nat) : FloatVal :=
  let sign := bits >>> (ebits + mbits) &&& 1
  let e := (bits >>> mbits) &&& (2 ^ ebits - 1)
  let m := bits &&& (2 ^ mbits - 1)
  let bias : Int := 2 ^ (ebits - 1) - 1
  if e = 2 ^ ebits - 1 then
    if m = 0 then (if sign = 1 then FloatVal.ninf else FloatVal.inf) else FloatVal.nan
  else
    let mag : ℚ :=
      if e = 0 then (m : ℚ) * qPow2 ((1 : Int) - bias - (mbits : Int))
      else ((2 ^ mbits + m : Nat) : ℚ) * qPow2 ((e : Int) - bias - (mbits : Int))
    FloatVal.finite (if sign = 1 then -mag else mag)

/-- Round to nearest, ties to even. -/
def roundNearestEven (q : ℚ) : Int :=
  let f := ⌊q⌋
  let r := q - f
  if r < 1/2 then f else if 1/2 < r then f + 1 else if f % 2 = 0 then f else f + 1

/-- IEEE-754 binary64 bit pattern of a positive rational (round to nearest,
ties to even); models what `DataView.setFloat64` stores for that value. -/
def float64BitsPos (q : ℚ) : Nat :=
  let e := qLog2 q
  if e < -1022 then
    (roundNearestEven (q * qPow2 1074)).toNat
  else
    let m := roundNearestEven (q * qPow2 (52 - e))
    let m2 := if m = 2 ^ 53 then (2 ^ 52 : Int) else m
    let e2 := if m = 2 ^ 53 then e + 1 else e
    if 1023 < e2 then 0x7FF0000000000000
    else (e2 + 1023).toNat <<< 52 + (m2.toNat - 2 ^ 52)

def float64Bits (q : ℚ) : Nat :=
  if q = 0 then 0
  else if q < 0 then 2 ^ 63 + float64BitsPos (-q)
  else float64BitsPos q

/-- Exact model of a float-by-rational product (`duration_val * scale`);
rounding of the true product is ignored, which no verified statement
depends on. -/
def floatMulQ : FloatVal → ℚ → FloatVal
  | .finite a, q => .finite (a * q)
  | .nan, _ => .nan
  | .inf, q => if 0 < q then .inf else if q < 0 then .ninf else .nan
  | .ninf, q => if 0 < q then .ninf else if q < 0 then .inf else .nan

/-- IEEE comparison `v <= q` (false on NaN). -/
def floatLe (v : FloatVal) (q : ℚ) : Bool :=
  match v with
  | .finite a => decide (a ≤ q)
  | .ninf => true
  | .inf => false
  | .nan => false

/-- Big-endian byte serialisation of the low `8 * n` bits of `v`
(byte `i` is `(v >>> (8 * (n - 1 - i))) &&& 0xff`), the shape shared by the
fill loops of `encodeVint` and `DataView.setFloat64`. -/
def toBytesBE : Nat → Nat → List Nat
  | 0, _ => []
  | n + 1, v => ((v >>> (8 * n)) &&& 0xff) :: toBytesBE n v

namespace WebmFix

/-- Result record of the init script's `readVint`. -/
structure Vint where
  length : Nat
  value : Nat
  unknown : Bool
deriving DecidableEq, Repr

/-- `readVint(bytes, offset, asSize)` of the init script.  In ID mode the
first byte is kept whole (`first & 0xff`); in size mode the marker bit is
stripped (`first & (mask - 1)`) and an all-ones payload sets `unknown`. -/
def readVint (bytes : List Nat) (offset : Nat) (asSize : Bool) : Except String Vint :=
  match bytes.get? offset with
  | none => .error "out of range"
  | some first =>
    let fm := vintFind first
    let length := fm.1
    let mask := fm.2
    if 8 < length then .error "bad vint"
    else
      let v0 := first &&& (if asSize then mask - 1 else 0xff)
      match readFoldBE bytes (length - 1) (offset + 1) v0 with
      | .error e => .error e
      | .ok value =>
        .ok ⟨length, value, asSize && decide (value = 2 ^ (7 * length) - 1)⟩

/-- Sets the marker bit `1 << (8 - len)` on the first byte
(`out[0] |= 1 << (8 - len)`). -/
def markTop (len : Nat) : List Nat → List Nat
  | [] => []
  | b :: t => (b ||| (1 <<< (8 - len))) :: t

/-- The length-selection loop of `encodeVint`: try `len, len+1, ..., 8`,
then throw `value too large`. -/
def encodeVintGo (v : Nat) : Nat → Nat → Except String (List Nat)
  | _, 0 => .error "value too large"
  | len, fuel + 1 =>
    if v ≤ 2 ^ (7 * len) - 1 then .ok (markTop len (toBytesBE len v))
    else encodeVintGo v (len + 1) fuel

/-- `encodeVint(value, minLen)` of the init script. -/
def encodeVint (value minLen : Nat) : Except String (List Nat) :=
  encodeVintGo value minLen (9 - minLen)

/-- The byte-collecting loop of `encodeUint` (low byte last); fuel `v`
dominates the byte count of `v`. -/
def encodeUintGo : Nat → Nat → List Nat
  | 0, _ => []
  | fuel + 1, v => if v = 0 then [] else encodeUintGo fuel (v >>> 8) ++ [v &&& 0xff]

/-- `encodeUint(value)` of the init script: minimal big-endian bytes,
`[0]` for zero. -/
def encodeUint (value : Nat) : List Nat :=
  if value = 0 then [0] else encodeUintGo value value

/-- `encodeFloat64(value)`: the eight big-endian bytes that
`DataView.setFloat64` stores. -/
def encodeFloat64 (value : ℚ) : List Nat := toBytesBE 8 (float64Bits value)

/-- `idToBytes(id)` of the init script: big-endian bytes of the 32-bit id,
leading zero bytes dropped (the last byte always kept). -/
def idToBytes (id : Nat) : List Nat :=
  [24, 16, 8, 0].foldl
    (fun acc shift =>
      let b := (id >>> shift) &&& 0xff
      if acc ≠ [] ∨ b ≠ 0 ∨ shift = 0 then acc ++ [b] else acc)
    []

/-- `readUInt(bytes, offset, length)` of the init script. -/
def readUInt (bytes : List Nat) (offset length : Nat) : Except String Nat :=
  readFoldBE bytes length offset 0

/-- The element record built by `parseElement`.  The source field `end` is a
Lean keyword and is rendered `endPos`. -/
structure Elem where
  id : Nat
  size : Vint
  start : Nat
  dataOffset : Nat
  endPos : Nat
  headerLength : Nat
deriving DecidableEq, Repr

/-- `parseElement(bytes, offset)`: `null` past the end of the buffer; an
unknown size makes the element run to the end of the buffer. -/
def parseElement (bytes : List Nat) (offset : Nat) : Except String (Option Elem) :=
  if bytes.length ≤ offset then .ok none
  else do
    let idv ← readVint bytes offset false
    let size ← readVint bytes (offset + idv.length) true
    let dataOffset := offset + idv.length + size.length
    let endPos := if size.unknown then bytes.length else dataOffset + size.value
    .ok (some ⟨idv.value, size, offset, dataOffset, endPos, idv.length + size.length⟩)

/-- The walk of `parseChildren`: advance by `el.end` until the bound, a
`null` parse, or a zero-length element.  Each successful parse advances the
offset by at least one, so the fuel `endB + 1 - start` is never exhausted. -/
def parseChildrenGo (bytes : List Nat) (endB : Nat) : Nat → Nat → Except String (List Elem)
  | 0, _ => .ok []
  | fuel + 1, offset =>
    if offset < endB then do
      match ← parseElement bytes offset with
      | none => .ok []
      | some el =>
        if el.start = el.endPos then .ok []
        else do
          let rest ← parseChildrenGo bytes endB fuel el.endPos
          .ok (el :: rest)
    else .ok []

def parseChildren (bytes : List Nat) (start endB : Nat) : Except String (List Elem) :=
  parseChildrenGo bytes endB (endB + 1 - start) start

structure Cluster where
  start : Nat
  timecode : Nat
deriving DecidableEq, Repr

/-- The document index returned by `scanWebM`.  The source stores the Info
children on the element (`info.children`); they are carried here in
`infoChildren`. -/
structure ScanResult where
  segment : Elem
  info : Option Elem
  infoChildren : List Elem
  cues : Option Elem
  clusters : List Cluster
  timecodeScale : Nat
deriving DecidableEq, Repr

structure ScanState where
  info : Option Elem
  infoChildren : List Elem
  cues : Option Elem
  clusters : List Cluster
  timecodeScale : Nat
deriving DecidableEq, Repr

/-- The TimecodeScale sub-walk of the Info branch of `scanWebM`
(`timecodeScale = readUInt(bytes, child.dataOffset, size || 1)` with
`size = child.end - child.dataOffset` as a JavaScript number, so a negative
size reads zero bytes and a zero size reads one). -/
def infoScaleFold (bytes : List Nat) (children : List Elem) (ts : Nat) : Except String Nat :=
  children.foldlM
    (fun acc child =>
      if child.id = 0x2AD7B1 then
        let sz : Int := (child.endPos : Int) - (child.dataOffset : Int)
        readUInt bytes child.dataOffset (if sz = 0 then 1 else sz).toNat
      else .ok acc)
    ts

/-- The Timecode sub-walk of the Cluster branch of `scanWebM` (first `0xE7`
child wins; default `0`). -/
def clusterTimecode (bytes : List Nat) (children : List Elem) : Except String Nat :=
  match children.find? (fun child => child.id = 0xE7) with
  | some child =>
    readUInt bytes child.dataOffset ((child.endPos : Int) - (child.dataOffset : Int)).toNat
  | none => .ok 0

/-- The top-level segment walk of `scanWebM`, dispatching on Info, Cues and
Cluster ids. -/
def scanLoop (bytes : List Nat) (segEnd : Nat) : Nat → Nat → ScanState → Except String ScanState
  | 0, _, st => .ok st
  | fuel + 1, offset, st =>
    if offset < segEnd then do
      match ← parseElement bytes offset with
      | none => .ok st
      | some el => do
        let st ←
          if el.id = 0x1549A966 then do
            let children ← parseChildren bytes el.dataOffset el.endPos
            let ts ← infoScaleFold bytes children st.timecodeScale
            pure { st with info := some el, infoChildren := children, timecodeScale := ts }
          else if el.id = 0x1C53BB6B then pure { st with cues := some el }
          else if el.id = 0x1F43B675 then do
            let children ← parseChildren bytes el.dataOffset el.endPos
            let tc ← clusterTimecode bytes children
            pure { st with clusters := st.clusters ++ [⟨el.start, tc⟩] }
          else pure st
        scanLoop bytes segEnd fuel el.endPos st
    else .ok st

/-- `scanWebM(bytes)` of the init script. -/
def scanWebM (bytes : List Nat) : Except String ScanResult := do
  match ← parseElement bytes 0 with
  | none => .error "No EBML header"
  | some first =>
    match ← parseElement bytes first.endPos with
    | none => .error "No Segment"
    | some segment =>
      let segEnd := if segment.size.unknown then bytes.length else segment.endPos
      let st ← scanLoop bytes segEnd (segEnd + 1 - segment.dataOffset) segment.dataOffset
        ⟨none, [], none, [], 1000000⟩
      .ok ⟨segment, st.info, st.infoChildren, st.cues, st.clusters,
        if st.timecodeScale = 0 then 1000000 else st.timecodeScale⟩

/-- `encodeElement(id, data)` of the init script. -/
def encodeElement (id : Nat) (data : List Nat) : Except String (List Nat) := do
  let sz ← encodeVint data.length 1
  .ok (idToBytes id ++ sz ++ data)

/-- A patch as pushed by `patchWebM`: replace `[start, end)` by `data`;
`delta = data.length - (end - start)`. -/
structure Patch where
  start : Nat
  endPos : Nat
  data : List Nat
  delta : Int
deriving DecidableEq, Repr

def mkPatch (start endPos : Nat) (data : List Nat) : Patch :=
  ⟨start, endPos, data, (data.length : Int) - ((endPos : Int) - (start : Int))⟩

/-- `adjuster(patches)` of the init script: add the delta of every patch
whose start lies at or before the offset. -/
def adjuster (patches : List Patch) (offset : Nat) : Int :=
  patches.foldl (fun acc p => if p.start ≤ offset then acc + p.delta else acc) (offset : Int)

/-- One splice step of `applyPatches`. -/
def spliceP (bytes : List Nat) (p : Patch) : List Nat :=
  bytes.take p.start ++ p.data ++ bytes.drop p.endPos

/-- `applyPatches(bytes, patches)`: sort by descending start (JavaScript
`Array.prototype.sort` is stable; any stable sort models it) and splice each
patch in turn. -/
def applyPatches (bytes : List Nat) (patches : List Patch) : List Nat :=
  (patches.insertionSort (fun a b => b.start ≤ a.start)).foldl spliceP bytes

/-- The child-copy loop of the Info branch of `patchWebM`: every existing
Info child byte-range verbatim except a prior Duration child. -/
def infoPieces (merged : List Nat) (children : List Elem) : List (List Nat) :=
  children.foldl
    (fun acc child =>
      if child.id = 0x4489 then acc else acc ++ [sliceBytes merged child.start child.endPos])
    []

/-- Step 2 of `patchWebM`: the Info replacement patch (rebuild an existing
Info without its old Duration, or synthesize TimecodeScale + Duration at the
start of the Segment data). -/
def buildInfoPatch (merged : List Nat) (res : ScanResult) (durationElem : List Nat) :
    Except String Patch :=
  match res.info with
  | some ie => do
    let pieces := infoPieces merged res.infoChildren ++ [durationElem]
    let data := pieces.flatten
    let sz ← encodeVint data.length 1
    .ok (mkPatch ie.start ie.endPos ((idToBytes 0x1549A966 ++ sz) ++ data))
  | none => do
    let timecodeElem ← encodeElement 0x2AD7B1
      (encodeUint (if res.timecodeScale = 0 then 1000000 else res.timecodeScale))
    let data := timecodeElem ++ durationElem
    let sz ← encodeVint data.length 1
    .ok (mkPatch res.segment.dataOffset res.segment.dataOffset
      ((idToBytes 0x1549A966 ++ sz) ++ data))

/-- Step 3 of `patchWebM` for one cluster: CueTime, CueTrack (= 1) and
CueClusterPosition (the adjusted cluster offset relative to the Segment data
start, clamped at zero) wrapped into a CuePoint. -/
def buildCuePoint (res : ScanResult) (adjust : Nat → Int) (cluster : Cluster) :
    Except String (List Nat) := do
  let finalOffset := adjust cluster.start
  let rel := (max 0 (finalOffset - (res.segment.dataOffset : Int))).toNat
  let cueTime ← encodeElement 0xB3 (encodeUint cluster.timecode)
  let cueTrack ← encodeElement 0xF7 (encodeUint 1)
  let cuePos ← encodeElement 0xF1 (encodeUint rel)
  let positions ← encodeElement 0xB7 (cueTrack ++ cuePos)
  encodeElement 0xBB (cueTime ++ positions)

def buildCuePoints (res : ScanResult) (adjust : Nat → Int) :
    Except String (List (List Nat)) :=
  res.clusters.mapM (buildCuePoint res adjust)

/-- Step 4 of `patchWebM`: the Cues patch — replace an existing Cues element
or insert at the end of the bounded Segment (at the end of the buffer for an
unknown-size Segment); `none` when no cue points were built. -/
def buildCuesPatch (merged : List Nat) (res : ScanResult) (cuePoints : List (List Nat)) :
    Except String (Option Patch) :=
  if cuePoints = [] then .ok none
  else do
    let cuesBytes ← encodeElement 0x1C53BB6B cuePoints.flatten
    match res.cues with
    | some c => .ok (some (mkPatch c.start c.endPos cuesBytes))
    | none =>
      let insertPos := if res.segment.size.unknown then merged.length else res.segment.endPos
      .ok (some (mkPatch insertPos insertPos cuesBytes))

/-- `concatBytes` of the init script (`toUint8` is the identity on byte
chunks). -/
def concatBytes (buffers : List (List Nat)) : List Nat := buffers.flatten

/-- The body of `patchWebM` up to the final `try/catch`: every `throw` of a
callee surfaces here as an `Except.error`. -/
def patchBody (buffers : List (List Nat)) (durationMs : ℚ) :
    Except String (List Nat × List String) := do
  let merged := concatBytes buffers
  if merged.length = 0 then .error "empty data"
  else do
    let res ← scanWebM merged
    let durationSeconds : ℚ := max 0 (durationMs / 1000)
    let durationElem ← encodeElement 0x4489 (encodeFloat64 durationSeconds)
    let infoPatch ← buildInfoPatch merged res durationElem
    let patches := [infoPatch]
    let cuePoints ← buildCuePoints res (adjuster patches)
    let cuesPatch ← buildCuesPatch merged res cuePoints
    match cuesPatch with
    | some cp => .ok (applyPatches merged (patches ++ [cp]), [])
    | none => .ok (applyPatches merged patches, ["no clusters found for cues"])

/-- `patchWebM(buffers, durationMs)`: the catch-all boundary turns any error
into `null` plus the `patch failed` warning; the string component collects
the warnings pushed through `warn`. -/
def patchWebM (buffers : List (List Nat)) (durationMs : ℚ) :
    Option (List Nat) × List String :=
  match patchBody buffers durationMs with
  | .ok (bytes, warns) => (some bytes, warns)
  | .error e => (none, ["patch failed " ++ e])

/-- The webm branch of the `window.Blob` override: the patched bytes when
`patchWebM` returns them, the original ordered chunks otherwise. -/
def blobOverride (ordered : List (List Nat)) (durationMs : ℚ) : List Nat :=
  match (patchWebM ordered durationMs).1 with
  | some patched => patched
  | none => concatBytes ordered

/-- Decoding of a Cues element from a buffer, assembled from the source's own
parse primitives (`parseChildren`, `readUInt`): the CueClusterPosition of
every CuePoint child. -/
def decodeCuePositions (bytes : List Nat) (cues : Elem) : Except String (List Nat) := do
  let children ← parseChildren bytes cues.dataOffset cues.endPos
  (children.filter (fun c => c.id = 0xBB)).mapM (fun cpEl => do
    let pts ← parseChildren bytes cpEl.dataOffset cpEl.endPos
    match pts.find? (fun c => c.id = 0xB7) with
    | none => .error "no CueTrackPositions"
    | some pos => do
      let inner ← parseChildren bytes pos.dataOffset pos.endPos
      match inner.find? (fun c => c.id = 0xF1) with
      | none => .error "no CueClusterPosition"
      | some f => readUInt bytes f.dataOffset (f.endPos - f.dataOffset))

end WebmFix

namespace RenderPy

/-- `_read_vint_py(data, offset, as_size)` of render.py; returns the source's
`(length, value, unknown)` triple.  In ID mode the whole first byte is the
initial value. -/
def read_vint_py (data : List Nat) (offset : Nat) (as_size : Bool) :
    Except String (Nat × Nat × Bool) :=
  match data.get? offset with
  | none => .error "index out of range"
  | some first =>
    let fm := vintFind first
    let length := fm.1
    let mask := fm.2
    if 8 < length then .error "invalid vint length"
    else
      let v0 := if as_size then first &&& (if mask = 0 then 0 else mask - 1) else first
      match readFoldBE data (length - 1) (offset + 1) v0 with
      | .error e => .error e
      | .ok value =>
        .ok (length, value, as_size && decide (value = 2 ^ (7 * length) - 1))

structure PyElem where
  id : Nat
  start : Nat
  data_offset : Nat
  endPos : Nat
  size : Nat
  unknown : Bool
deriving DecidableEq, Repr

/-- `_parse_element_py(data, offset)`: `None` past the end of the buffer and
`None` when the declared range runs past the buffer. -/
def parse_element_py (data : List Nat) (offset : Nat) : Except String (Option PyElem) :=
  if data.length ≤ offset then .ok none
  else do
    let (id_len, element_id, _) ← read_vint_py data offset false
    let (size_len, size_value, unknown) ← read_vint_py data (offset + id_len) true
    let data_offset := offset + id_len + size_len
    let endPos := if unknown then data.length else data_offset + size_value
    if data.length < data_offset ∨ data.length < endPos then .ok none
    else .ok (some ⟨element_id, offset, data_offset, endPos, size_value, unknown⟩)

/-- The walk of `_parse_children_py`: stop silently at the bound or at the
first `None` parse. -/
def parse_children_py_go (data : List Nat) (endB : Nat) : Nat → Nat → Except String (List PyElem)
  | 0, _ => .ok []
  | fuel + 1, offset =>
    if offset < endB then do
      match ← parse_element_py data offset with
      | none => .ok []
      | some el => do
        let rest ← parse_children_py_go data endB fuel el.endPos
        .ok (el :: rest)
    else .ok []

def parse_children_py (data : List Nat) (start endB : Nat) : Except String (List PyElem) :=
  parse_children_py_go data endB (endB + 1 - start) start

structure PyMeta where
  duration : Option FloatVal
  cue_points : Nat
deriving DecidableEq, Repr

/-- The Duration extraction of `_scan_webm_py` (first Duration child wins; a
4-byte payload reads as `>f`, a payload of at least 8 bytes as `>d` of its
first eight bytes, anything else is skipped). -/
def infoDurationFold (data : List Nat) (children : List PyElem) (dur : Option FloatVal) :
    Option FloatVal :=
  children.foldl
    (fun acc child =>
      if child.id = 0x4489 ∧ acc = none then
        let payload := sliceBytes data child.data_offset child.endPos
        if payload.length = 4 then some (decodeFloatBits 8 23 (beNat payload))
        else if 8 ≤ payload.length then some (decodeFloatBits 11 52 (beNat (payload.take 8)))
        else acc
      else acc)
    dur

/-- The segment walk of `_scan_webm_py`. -/
def scanLoopPy (data : List Nat) (segEnd : Nat) :
    Nat → Nat → Option FloatVal → Nat → Except String PyMeta
  | 0, _, dur, cues => .ok ⟨dur, cues⟩
  | fuel + 1, offset, dur, cues =>
    if offset < segEnd then do
      match ← parse_element_py data offset with
      | none => .ok ⟨dur, cues⟩
      | some el =>
        if el.id = 0x1549A966 then do
          let children ← parse_children_py data el.data_offset el.endPos
          scanLoopPy data segEnd fuel el.endPos (infoDurationFold data children dur) cues
        else if el.id = 0x1C53BB6B then do
          let children ← parse_children_py data el.data_offset el.endPos
          scanLoopPy data segEnd fuel el.endPos dur
            (cues + (children.filter (fun c => c.id = 0xBB)).length)
        else scanLoopPy data segEnd fuel el.endPos dur cues
    else .ok ⟨dur, cues⟩

/-- `_scan_webm_py(raw)` of render.py. -/
def scan_webm_py (raw : List Nat) : Except String PyMeta := do
  match ← parse_element_py raw 0 with
  | none => .error "missing EBML header"
  | some root =>
    match ← parse_element_py raw root.endPos with
    | none => .error "missing Segment"
    | some segment =>
      let segEnd := if segment.unknown then raw.length else segment.endPos
      scanLoopPy raw segEnd (segEnd + 1 - segment.data_offset) segment.data_offset none 0

/-- The second component of `_validate_webm`: either the error dictionary
(message kept, interpolated exception text elided) or the metadata
dictionary. -/
inductive PyRes where
  | err (msg : String)
  | meta (duration : FloatVal) (cue_points : Nat)
deriving DecidableEq, Repr

/-- Python truthiness of the optional duration float (`bool(duration)`):
false for `None` and `0.0`, true otherwise (also for NaN and infinities). -/
def pyTruthy : Option FloatVal → Bool
  | none => false
  | some (.finite q) => decide (q ≠ 0)
  | some _ => true

/-- `float(duration) > 0` under IEEE comparison (false on NaN). -/
def pyGtZero : Option FloatVal → Bool
  | some (.finite q) => decide (0 < q)
  | some .inf => true
  | _ => false

/-- `float(duration or 0.0)`. -/
def durOrZero : Option FloatVal → FloatVal
  | none => .finite 0
  | some v => if pyTruthy (some v) then v else .finite 0

/-- The `ok` formula of `_validate_webm`:
`bool(duration) and float(duration) > 0 and cue_points > 0`. -/
def okOf (m : PyMeta) : Bool :=
  pyTruthy m.duration && pyGtZero m.duration && decide (0 < m.cue_points)

/-- `_validate_webm(path)`; the file read is modelled by the optional input
(`none` is a failing read). -/
def validate_webm (input : Option (List Nat)) : Bool × PyRes :=
  match input with
  | none => (false, .err "read failed")
  | some raw =>
    match scan_webm_py raw with
    | .error e => (false, .err ("parse failed: " ++ e))
    | .ok m => (okOf m, .meta (durOrZero m.duration) m.cue_points)

end RenderPy

namespace VerifyWebm

/-- The payload loop of `_read_vint` in verify_webm.py (bounds-checked, so
running out of bytes raises its own message); returns the value and the new
offset. -/
def readTailV (data : List Nat) : Nat → Nat → Nat → Except String (Nat × Nat)
  | 0, idx, value => .ok (value, idx)
  | count + 1, idx, value =>
    match data.get? idx with
    | none => .error "Unexpected end of stream in vint payload"
    | some b => readTailV data count (idx + 1) ((value <<< 8) ||| b)

/-- `_read_vint(data, offset)` of verify_webm.py; returns the source's
`(value, length, new_offset)` triple.  Note that the marker bit is stripped
unconditionally (`value = first & (mask - 1)`) — there is no ID mode. -/
def read_vint (data : List Nat) (offset : Nat) : Except String (Nat × Nat × Nat) :=
  match data.get? offset with
  | none => .error "Unexpected end of stream while reading vint"
  | some first =>
    let fm := vintFind first
    let length := fm.1
    let mask := fm.2
    if 8 < length then .error "Invalid vint length"
    else do
      let (value, off) ← readTailV data (length - 1) (offset + 1) (first &&& (mask - 1))
      .ok (value, length, off)

/-- `_read_element(data, offset)`: id vint, size vint, header length, and the
offset of the payload. -/
def read_element (data : List Nat) (offset : Nat) :
    Except String (Nat × Nat × Nat × Nat) := do
  let (elem_id, id_len, off1) ← read_vint data offset
  let (size, size_len, off2) ← read_vint data off1
  .ok (elem_id, size, id_len + size_len, off2)

/-- `_read_float(data)`: 4-byte `>f` or 8-byte `>d` payloads only. -/
def read_float (data : List Nat) : Except String FloatVal :=
  if data.length = 4 then .ok (decodeFloatBits 8 23 (beNat data))
  else if data.length = 8 then .ok (decodeFloatBits 11 52 (beNat data))
  else .error "Unsupported float size"

/-- `_read_uint(data)`. -/
def read_uint (data : List Nat) : Nat :=
  data.foldl (fun value b => (value <<< 8) ||| b) 0

/-- `_read_ascii(data)`: ASCII decoding with `errors="replace"`. -/
def read_ascii (data : List Nat) : String :=
  String.mk (data.map (fun b => if b < 128 then Char.ofNat b else Char.ofNat 0xFFFD))

/-- Python `str.lower()`, written as a per-character map so that the kernel
can evaluate it. -/
def pyLower (s : String) : String := String.mk (s.data.map Char.toLower)

structure VideoTrack where
  codec_id : String
  pixel_width : Nat
  pixel_height : Nat
  default_duration_ns : Option Nat
deriving DecidableEq, Repr

structure WebMInfo where
  doc_type : String
  duration_s : Option FloatVal
  timecode_scale_ns : Nat
  video_track : Option VideoTrack
deriving DecidableEq, Repr

/-- The `fps` property of `WebMInfo` (exact rational model of the float
division `1e9 / default_duration_ns`). -/
def fps (info : WebMInfo) : Option ℚ :=
  match info.video_track with
  | none => none
  | some t =>
    match t.default_duration_ns with
    | none => none
    | some ns => if ns = 0 then none else some ((1000000000 : ℚ) / (ns : ℚ))

/-- The loop of `_parse_info(segment)` (last Duration child wins; decoding a
payload of an unsupported width raises). -/
def parse_info_go (seg : List Nat) : Nat → Nat → Option FloatVal → Nat →
    Except String (Option FloatVal × Nat)
  | 0, _, dur, ts => .ok (dur, ts)
  | fuel + 1, offset, dur, ts =>
    if offset < seg.length then do
      let (elem_id, size, _, off) ← read_element seg offset
      let payload := sliceBytes seg off (off + size)
      if elem_id = 0x2AD7B1 then parse_info_go seg fuel (off + size) dur (read_uint payload)
      else if elem_id = 0x4489 then do
        let d ← read_float payload
        parse_info_go seg fuel (off + size) (some d) ts
      else parse_info_go seg fuel (off + size) dur ts
    else .ok (dur, ts)

def parse_info (seg : List Nat) : Except String (Option FloatVal × Nat) :=
  parse_info_go seg (seg.length + 1) 0 none 1000000

/-- The loop of `_parse_video_track(payload)`. -/
def parse_video_track_go (payload : List Nat) : Nat → Nat → Option Nat → Option Nat →
    Except String (Option Nat × Option Nat)
  | 0, _, w, h => .ok (w, h)
  | fuel + 1, offset, w, h =>
    if offset < payload.length then do
      let (elem_id, size, _, off) ← read_element payload offset
      let data := sliceBytes payload off (off + size)
      if elem_id = 0xB0 then
        parse_video_track_go payload fuel (off + size) (some (read_uint data)) h
      else if elem_id = 0xBA then
        parse_video_track_go payload fuel (off + size) w (some (read_uint data))
      else parse_video_track_go payload fuel (off + size) w h
    else .ok (w, h)

/-- `_parse_video_track(payload)`: raises when a dimension is missing. -/
def parse_video_track (payload : List Nat) : Except String VideoTrack := do
  let (w, h) ← parse_video_track_go payload (payload.length + 1) 0 none none
  match w, h with
  | some pw, some ph => .ok ⟨"", pw, ph, none⟩
  | _, _ => .error "Video track missing dimensions"

/-- The inner loop of `_parse_tracks` over one TrackEntry payload,
accumulating track type, codec id, default duration and the Video payload. -/
def parse_track_entry_go (payload : List Nat) : Nat → Nat →
    Option Nat → String → Option Nat → Option (List Nat) →
    Except String (Option Nat × String × Option Nat × Option (List Nat))
  | 0, _, tt, cid, dd, vp => .ok (tt, cid, dd, vp)
  | fuel + 1, t_offset, tt, cid, dd, vp =>
    if t_offset < payload.length then do
      let (t_elem_id, t_size, _, t_off) ← read_element payload t_offset
      let t_data := sliceBytes payload t_off (t_off + t_size)
      if t_elem_id = 0x83 then
        parse_track_entry_go payload fuel (t_off + t_size) (some (read_uint t_data)) cid dd vp
      else if t_elem_id = 0x86 then
        parse_track_entry_go payload fuel (t_off + t_size) tt (read_ascii t_data) dd vp
      else if t_elem_id = 0x23E383 then
        parse_track_entry_go payload fuel (t_off + t_size) tt cid (some (read_uint t_data)) vp
      else if t_elem_id = 0xE0 then
        parse_track_entry_go payload fuel (t_off + t_size) tt cid dd (some t_data)
      else parse_track_entry_go payload fuel (t_off + t_size) tt cid dd vp
    else .ok (tt, cid, dd, vp)

/-- The outer loop of `_parse_tracks(segment)` (last video TrackEntry
wins). -/
def parse_tracks_go (seg : List Nat) : Nat → Nat → Option VideoTrack →
    Except String (Option VideoTrack)
  | 0, _, vt => .ok vt
  | fuel + 1, offset, vt =>
    if offset < seg.length then do
      let (elem_id, size, _, off) ← read_element seg offset
      if elem_id ≠ 0xAE then parse_tracks_go seg fuel (off + size) vt
      else do
        let payload := sliceBytes seg off (off + size)
        let (tt, cid, dd, vp) ←
          parse_track_entry_go payload (payload.length + 1) 0 none "" none none
        match vp with
        | some video_payload =>
          if tt = some 1 then do
            let track ← parse_video_track video_payload
            parse_tracks_go seg fuel (off + size)
              (some ⟨cid, track.pixel_width, track.pixel_height, dd⟩)
          else parse_tracks_go seg fuel (off + size) vt
        | none => parse_tracks_go seg fuel (off + size) vt
    else .ok vt

def parse_tracks (seg : List Nat) : Except String (Option VideoTrack) :=
  parse_tracks_go seg (seg.length + 1) 0 none

/-- The loop of `_parse_doc_type(header)` (last DocType child wins). -/
def parse_doc_type_go (header : List Nat) : Nat → Nat → String → Except String String
  | 0, _, dt => .ok dt
  | fuel + 1, offset, dt =>
    if offset < header.length then do
      let (elem_id, size, _, off) ← read_element header offset
      let data := sliceBytes header off (off + size)
      if elem_id = 0x4282 then parse_doc_type_go header fuel (off + size) (read_ascii data)
      else parse_doc_type_go header fuel (off + size) dt
    else .ok dt

def parse_doc_type (header : List Nat) : Except String String :=
  parse_doc_type_go header (header.length + 1) 0 ""

/-- The segment walk of `inspect_webm`: each Info element overwrites both the
duration value and the timecode scale, each Tracks element overwrites the
video track (possibly with `None`). -/
def inspect_segment_go (seg : List Nat) : Nat → Nat →
    Option FloatVal → Nat → Option VideoTrack →
    Except String (Option FloatVal × Nat × Option VideoTrack)
  | 0, _, dv, ts, vt => .ok (dv, ts, vt)
  | fuel + 1, offset, dv, ts, vt =>
    if offset < seg.length then do
      let (elem_id, size, _, off) ← read_element seg offset
      let payload := sliceBytes seg off (off + size)
      if elem_id = 0x1549A966 then do
        let (d, t) ← parse_info payload
        inspect_segment_go seg fuel (off + size) d t vt
      else if elem_id = 0x1654AE6B then do
        let v ← parse_tracks payload
        inspect_segment_go seg fuel (off + size) dv ts v
      else inspect_segment_go seg fuel (off + size) dv ts vt
    else .ok (dv, ts, vt)

/-- `inspect_webm(path)` of verify_webm.py, on the bytes of the file: header
element (id compared against the full constant `0x1A45DFA3`), DocType,
Segment element (id compared against `0x18538067`; only the 8-byte all-ones
size counts as unknown), then the segment walk and the duration conversion
`duration_val * (timecode_scale / 1e9)`. -/
def inspect_webm (raw : List Nat) : Except String WebMInfo := do
  let (elem_id, size, _, off0) ← read_element raw 0
  if elem_id ≠ 0x1A45DFA3 then .error "Missing EBML header"
  else do
    let doc_type ← parse_doc_type (sliceBytes raw off0 (off0 + size))
    let offset := off0 + size
    let (seg_id, seg_size, _, off1) ← read_element raw offset
    if seg_id ≠ 0x18538067 then .error "Missing Segment element"
    else do
      let segment :=
        if seg_size = 2 ^ 56 - 1 then raw.drop off1 else sliceBytes raw off1 (off1 + seg_size)
      let (duration_val, timecode_scale, video_track) ←
        inspect_segment_go segment (segment.length + 1) 0 none 1000000 none
      let duration_s :=
        match duration_val with
        | none => none
        | some d => some (floatMulQ d ((timecode_scale : ℚ) / 1000000000))
      .ok ⟨doc_type, duration_s, timecode_scale, video_track⟩

/-- The DocType clause of `verify_webm` (message text without the
interpolated values). -/
def docTypeErrs (info : WebMInfo) : List String :=
  if pyLower info.doc_type ≠ "webm" then ["DocType must be webm"] else []

/-- The video-track clause of `verify_webm`: the missing-track error, or the
codec / resolution / fps checks when a track exists. -/
def trackErrs (info : WebMInfo) : List String :=
  match info.video_track with
  | none => ["Missing video track"]
  | some t =>
    (if t.codec_id = "V_VP9" ∨ t.codec_id = "V_VP8" then [] else ["Unexpected codec"]) ++
    (if t.pixel_width = 1280 ∧ t.pixel_height = 720 then [] else
      ["Resolution must be 1280x720"]) ++
    (match fps info with
     | none => ["Unable to determine FPS"]
     | some f => if 28 ≤ f ∧ f ≤ 32 then [] else ["FPS must be close to 30"])

/-- The duration clause of `verify_webm`
(`duration_s is None or duration_s <= 0.5`). -/
def durationErrs (info : WebMInfo) : List String :=
  match info.duration_s with
  | none => ["Duration must be > 0.5s"]
  | some d => if floatLe d (1/2) then ["Duration must be > 0.5s"] else []

/-- The accumulated error list of `verify_webm`, in source order. -/
def verifyErrors (info : WebMInfo) : List String :=
  docTypeErrs info ++ trackErrs info ++ durationErrs info

structure VerifyReport where
  doc_type : String
  duration_s : Option FloatVal
  fpsv : Option ℚ
  width : Option Nat
  height : Option Nat
  codec : Option String
  errors : List String
deriving DecidableEq, Repr

/-- `verify_webm(path)` of verify_webm.py: inspect, accumulate every policy
violation, and raise `ValueError("; ".join(errors))` when the list is
non-empty, otherwise return the report. -/
def verify_webm (raw : List Nat) : Except String VerifyReport := do
  let info ← inspect_webm raw
  let errors := verifyErrors info
  if errors ≠ [] then .error (String.intercalate "; " errors)
  else .ok ⟨info.doc_type, info.duration_s, fps info,
    info.video_track.map (fun t => t.pixel_width),
    info.video_track.map (fun t => t.pixel_height),
    info.video_track.map (fun t => t.codec_id), errors⟩

end VerifyWebm

/-! ### Concrete buffers used by witnesses and counterexamples -/

/-- Canonical EBML header element: 4-byte header id, one DocType child with
payload `webm`. -/
def hdrBytes : List Nat := [0x1A,0x45,0xDF,0xA3,0x87,0x42,0x82,0x84,0x77,0x65,0x62,0x6D]

/-- A minimal well-formed WebM buffer: the canonical header followed by an
empty bounded Segment. -/
def bufMinimalWebm : List Nat := [0x1A,0x45,0xDF,0xA3] ++
  [0x87,0x42,0x82,0x84,0x77,0x65,0x62,0x6D,0x18,0x53,0x80,0x67,0x80]

/-- A buffer whose element ids are encoded one byte longer than canonical, so
that the marker-stripping reader of verify_webm.py reads exactly the full-id
constants: header (id `08 1A 45 DF A3`), DocType `webm`, Segment
(id `08 18 53 80 67`) containing an Info (id `08 15 49 A9 66`) with a Duration
child (id `20 44 89`) of float32 value 4200, and no video track. -/
def bufFiveByteIds : List Nat :=
  [0x08,0x1A,0x45,0xDF,0xA3,0x88,0x20,0x42,0x82,0x84,0x77,0x65,0x62,0x6D,
   0x08,0x18,0x53,0x80,0x67,0x8E,0x08,0x15,0x49,0xA9,0x66,0x88,0x20,0x44,0x89,0x84,
   0x45,0x83,0x40,0x00]

/-- The `WebMInfo` that `inspect_webm` extracts from `bufFiveByteIds`. -/
def infoFiveByteIds : VerifyWebm.WebMInfo :=
  ⟨"webm", some (.finite (21/5)), 1000000, none⟩

/-- Scannable buffer with an Info element (one old 4-byte-float Duration
child), a pre-existing Cues element holding one cue point, and zero Cluster
elements. -/
def bufNoClusters : List Nat := hdrBytes ++ [0x18,0x53,0x80,0x67,0x94,
  0x15,0x49,0xA9,0x66,0x87,0x44,0x89,0x84,0x3F,0x80,0x00,0x00,
  0x1C,0x53,0xBB,0x6B,0x83,0xBB,0x81,0x00]

/-- The patcher output on `bufNoClusters` with a measured duration of
1000 ms: the Info element is rebuilt with an 8-byte Duration of 1.0, the
stale Cues element survives unchanged. -/
def bufNoClustersOut : List Nat := hdrBytes ++ [0x18,0x53,0x80,0x67,0x94,
  0x15,0x49,0xA9,0x66,0x8B,0x44,0x89,0x88,0x3F,0xF0,0x00,0x00,0x00,0x00,0x00,0x00,
  0x1C,0x53,0xBB,0x6B,0x83,0xBB,0x81,0x00]

/-- Scannable buffer with Info, then a pre-existing empty Cues element, then
one Cluster (timecode 5) after the Cues element. -/
def bufCuesBeforeCluster : List Nat := hdrBytes ++ [0x18,0x53,0x80,0x67,0x99,
  0x15,0x49,0xA9,0x66,0x87,0x44,0x89,0x84,0x3F,0x80,0x00,0x00,
  0x1C,0x53,0xBB,0x6B,0x80,
  0x1F,0x43,0xB6,0x75,0x83,0xE7,0x81,0x05]

/-- Scannable buffer with Info followed by one Cluster (timecode 5) and no
Cues element. -/
def bufInfoCluster : List Nat := hdrBytes ++ [0x18,0x53,0x80,0x67,0x94,
  0x15,0x49,0xA9,0x66,0x87,0x44,0x89,0x84,0x3F,0x80,0x00,0x00,
  0x1F,0x43,0xB6,0x75,0x83,0xE7,0x81,0x05]

/-! ### C10 -/

/-- C10: `_validate_webm` is total over its input (the embedding is a total
function): a failing read maps to `(False, error dict)`, a buffer whose EBML
scan raises maps to `(False, error dict)` carrying the parse message, and a
clean scan maps to the `(ok, metadata)` pair — no exception propagates. -/
theorem c10_validate_total (input : Option (List Nat)) :
    (input = none → RenderPy.validate_webm input = (false, .err "read failed")) ∧
    (∀ raw e, input = some raw → RenderPy.scan_webm_py raw = .error e →
      RenderPy.validate_webm input = (false, .err ("parse failed: " ++ e))) ∧
    (∀ raw m, input = some raw → RenderPy.scan_webm_py raw = .ok m →
      RenderPy.validate_webm input =
        (RenderPy.okOf m, .meta (RenderPy.durOrZero m.duration) m.cue_points)) := by
  refine ⟨?_, ?_, ?_⟩
  · rintro rfl; rfl
  · rintro raw e rfl h
    simp [RenderPy.validate_webm, h]
  · rintro raw m rfl h
    simp [RenderPy.validate_webm, h]

theorem c10_witness :
    RenderPy.validate_webm none = (false, .err "read failed") ∧
    RenderPy.validate_webm (some []) =
      (false, .err ("parse failed: " ++ "missing EBML header")) :=
  ⟨(c10_validate_total none).1 rfl,
   (c10_validate_total (some [])).2.1 [] "missing EBML header" rfl (by decide)⟩

/-- Reduction of the `Except` bind used throughout the embedding. -/
theorem exceptBind_ok {ε α β : Type} (a : α) (f : α → Except ε β) :
    (do let x ← Except.ok a; f x : Except ε β) = f a := rfl

theorem exceptBind_error {ε α β : Type} (e : ε) (f : α → Except ε β) :
    (do let x ← Except.error e; f x : Except ε β) = Except.error e := rfl

/-! ### C3 -/

/-- C3: the Patcher boundary.  `patchWebM` is a total function of its inputs
(the embedding catches every thrown error of its body), a failed structural
scan makes it return `null` with the `patch failed` warning, and whenever it
returns `null` the Blob-override consumer falls back to the original
concatenated chunk bytes unchanged and a warning was recorded. -/
theorem c3_patcher_boundary (buffers : List (List Nat)) (durationMs : ℚ) :
    (∀ e, WebmFix.scanWebM (WebmFix.concatBytes buffers) = .error e →
      (WebmFix.patchWebM buffers durationMs).1 = none ∧
      (WebmFix.patchWebM buffers durationMs).2 ≠ []) ∧
    ((WebmFix.patchWebM buffers durationMs).1 = none →
      WebmFix.blobOverride buffers durationMs = WebmFix.concatBytes buffers ∧
      (WebmFix.patchWebM buffers durationMs).2 ≠ []) := by
  constructor
  · intro e hscan
    have hbody : ∃ msg, WebmFix.patchBody buffers durationMs = .error msg := by
      unfold WebmFix.patchBody
      by_cases h : (WebmFix.concatBytes buffers).length = 0
      · exact ⟨"empty data", by simp [h]⟩
      · exact ⟨e, by simp [h, hscan, exceptBind_error]⟩
    obtain ⟨msg, hmsg⟩ := hbody
    simp [WebmFix.patchWebM, hmsg]
  · intro hnone
    cases hb : WebmFix.patchBody buffers durationMs with
    | ok v => simp [WebmFix.patchWebM, hb] at hnone
    | error e =>
      refine ⟨?_, ?_⟩
      · simp [WebmFix.blobOverride, WebmFix.patchWebM, hb]
      · simp [WebmFix.patchWebM, hb]

theorem c3_witness :
    (WebmFix.patchWebM [[0]] 0).1 = none ∧
    WebmFix.blobOverride [[0]] 0 = WebmFix.concatBytes [[0]] ∧
    (WebmFix.patchWebM [[0]] 0).2 ≠ [] := by
  have h := (c3_patcher_boundary [[0]] 0).1 "bad vint" (by decide)
  have h2 := (c3_patcher_boundary [[0]] 0).2 h.1
  exact ⟨h.1, h2.1, h.2⟩

/-! ### C2 -/

/-- C2: on every buffer that begins with the canonical 4-byte EBML header id
`1A 45 DF A3` (hence on every well-formed WebM file, in particular the
end-to-end scenario's patched buffer) and whose following size vint is
readable, `inspect_webm` reads the header id with the vint marker stripped
(`0x0A45DFA3`), never matches `EBML_HEADER_ID = 0x1A45DFA3`, and raises
`Missing EBML header` — so `verify_webm` can never return `ok = true`. -/
theorem c2_header_id_stripped (rest : List Nat) (v l o : Nat)
    (hsize : VerifyWebm.read_vint ([0x1A, 0x45, 0xDF, 0xA3] ++ rest) 4 = .ok (v, l, o)) :
    VerifyWebm.inspect_webm ([0x1A, 0x45, 0xDF, 0xA3] ++ rest) =
      .error "Missing EBML header" := by
  have hid : VerifyWebm.read_vint ([0x1A, 0x45, 0xDF, 0xA3] ++ rest) 0 =
      .ok (0x0A45DFA3, 4, 4) := rfl
  have hre : VerifyWebm.read_element ([0x1A, 0x45, 0xDF, 0xA3] ++ rest) 0 =
      .ok (0x0A45DFA3, v, 4 + l, o) := by
    unfold VerifyWebm.read_element
    simp only [hid, exceptBind_ok, hsize]
  unfold VerifyWebm.inspect_webm
  rw [hre]
  exact rfl

theorem c2_witness :
    VerifyWebm.read_vint bufMinimalWebm 4 = .ok (7, 1, 5) ∧
    VerifyWebm.inspect_webm bufMinimalWebm = .error "Missing EBML header" :=
  ⟨by decide,
   c2_header_id_stripped
     [0x87,0x42,0x82,0x84,0x77,0x65,0x62,0x6D,0x18,0x53,0x80,0x67,0x80] 7 1 5 (by decide)⟩

/-! ### C7 -/

/-- C7 counterexample: `bufFiveByteIds` scans structurally
(`inspect_webm` succeeds), has no video track, and its accumulated error
list is exactly the missing-video-track violation — yet `verify_webm`
raises (`ValueError`, modelled as `Except.error`) instead of returning the
report, refuting the claim that it does not raise. -/
theorem c7_counterexample :
    VerifyWebm.inspect_webm bufFiveByteIds = .ok infoFiveByteIds ∧
    infoFiveByteIds.video_track = none ∧
    VerifyWebm.verifyErrors infoFiveByteIds = ["Missing video track"] ∧
    VerifyWebm.verify_webm bufFiveByteIds = .error "Missing video track" := by
  refine ⟨by decide, by decide, by decide, by decide⟩

/-- C7 (amended): on every buffer that scans structurally with no video
track, and whose doc-type and duration checks pass, `fullValidate`
accumulates exactly the missing-video-track violation — the codec,
resolution and fps checks are skipped, producing no further errors — but
then raises a `ValueError` carrying exactly that violation instead of
returning the report. -/
theorem c7_missing_track (raw : List Nat) (info : VerifyWebm.WebMInfo)
    (hscan : VerifyWebm.inspect_webm raw = .ok info)
    (hvt : info.video_track = none)
    (hdt : VerifyWebm.docTypeErrs info = [])
    (hdur : VerifyWebm.durationErrs info = []) :
    VerifyWebm.verifyErrors info = ["Missing video track"] ∧
    VerifyWebm.verify_webm raw = .error "Missing video track" := by
  have htr : VerifyWebm.trackErrs info = ["Missing video track"] := by
    unfold VerifyWebm.trackErrs
    rw [hvt]
  have herr : VerifyWebm.verifyErrors info = ["Missing video track"] := by
    unfold VerifyWebm.verifyErrors
    rw [hdt, htr, hdur]
    rfl
  refine ⟨herr, ?_⟩
  unfold VerifyWebm.verify_webm
  rw [hscan, exceptBind_ok, herr]
  rfl

theorem c7_witness :
    VerifyWebm.verify_webm bufFiveByteIds = .error "Missing video track" :=
  (c7_missing_track bufFiveByteIds infoFiveByteIds (by decide) (by decide) (by decide)
    (by decide)).2

/-! ### C8 -/

/-- C8 counterexample: in `[0xE0, 0x83, 0xE7, 0xFF, 0x00, 0xAA, 0xBB]` the
parent element at offset 0 is bounded with end 5, while its unknown-size
child at offset 2 is accepted with end 7 — the whole buffer, not the
enclosing parent's bound 5. -/
theorem c8_counterexample :
    WebmFix.parseElement [0xE0, 0x83, 0xE7, 0xFF, 0x00, 0xAA, 0xBB] 0 =
      .ok (some ⟨0xE0, ⟨1, 3, false⟩, 0, 2, 5, 2⟩) ∧
    WebmFix.parseElement [0xE0, 0x83, 0xE7, 0xFF, 0x00, 0xAA, 0xBB] 2 =
      .ok (some ⟨0xE7, ⟨1, 0x7F, true⟩, 2, 4, 7, 2⟩) ∧
    WebmFix.parseChildren [0xE0, 0x83, 0xE7, 0xFF, 0x00, 0xAA, 0xBB] 2 5 =
      .ok [⟨0xE7, ⟨1, 0x7F, true⟩, 2, 4, 7, 2⟩] ∧
    RenderPy.parse_element_py [0xE0, 0x83, 0xE7, 0xFF, 0x00, 0xAA, 0xBB] 2 =
      .ok (some ⟨0xE7, 2, 4, 7, 0x7F, true⟩) ∧
    (7 : Nat) ≠ 5 := by
  refine ⟨by decide, by decide, by decide, by decide, by decide⟩

/-- C8 (amended): an unknown-size element parsed anywhere — at any depth,
not only as the outermost Segment — is accepted with its end set to the end
of the whole buffer, in both the JavaScript and the Python scanner; the
enclosing children walk then stops after it, but the element's own scope is
the buffer end, not the enclosing parent's bound. -/
theorem c8_unknown_size_scope :
    (∀ (bytes : List Nat) (off : Nat) (el : WebmFix.Elem),
      WebmFix.parseElement bytes off = .ok (some el) → el.size.unknown = true →
      el.endPos = bytes.length) ∧
    (∀ (data : List Nat) (off : Nat) (el : RenderPy.PyElem),
      RenderPy.parse_element_py data off = .ok (some el) → el.unknown = true →
      el.endPos = data.length) := by
  constructor
  · intro bytes off el h hu
    unfold WebmFix.parseElement at h
    split at h
    · exact absurd h (by simp)
    · cases h1 : WebmFix.readVint bytes off false with
      | error e => rw [h1, exceptBind_error] at h; exact absurd h (by simp)
      | ok idv =>
        rw [h1, exceptBind_ok] at h
        cases h2 : WebmFix.readVint bytes (off + idv.length) true with
        | error e => rw [h2, exceptBind_error] at h; exact absurd h (by simp)
        | ok size =>
          rw [h2, exceptBind_ok] at h
          have hel : el = ⟨idv.value, size, off, off + idv.length + size.length,
              if size.unknown then bytes.length
              else off + idv.length + size.length + size.value,
              idv.length + size.length⟩ := by
            have := h
            simp only [Except.ok.injEq, Option.some.injEq] at this
            exact this.symm
          subst hel
          simp only at hu
          simp only [hu, if_pos]
  · intro data off el h hu
    unfold RenderPy.parse_element_py at h
    split at h
    · exact absurd h (by simp)
    · cases h1 : RenderPy.read_vint_py data off false with
      | error e => rw [h1, exceptBind_error] at h; exact absurd h (by simp)
      | ok t1 =>
        obtain ⟨id_len, element_id, u1⟩ := t1
        simp only [h1, exceptBind_ok] at h
        cases h2 : RenderPy.read_vint_py data (off + id_len) true with
        | error e => simp only [h2, exceptBind_error] at h; exact absurd h (by simp)
        | ok t2 =>
          obtain ⟨size_len, size_value, unknown⟩ := t2
          simp only [h2, exceptBind_ok] at h
          cases unknown with
          | false =>
            simp at h
            split at h
            · exact absurd h (by simp)
            · simp only [Except.ok.injEq, Option.some.injEq] at h
              subst h
              simp at hu
          | true =>
            simp at h
            split at h
            · exact absurd h (by simp)
            · simp only [Except.ok.injEq, Option.some.injEq] at h
              subst h
              rfl

theorem c8_witness :
    (⟨0xE7, ⟨1, 0x7F, true⟩, 2, 4, 7, 2⟩ : WebmFix.Elem).endPos =
      [0xE0, 0x83, 0xE7, 0xFF, 0x00, 0xAA, 0xBB].length ∧
    (⟨0xE7, 2, 4, 7, 0x7F, true⟩ : RenderPy.PyElem).endPos =
      [0xE0, 0x83, 0xE7, 0xFF, 0x00, 0xAA, 0xBB].length :=
  ⟨c8_unknown_size_scope.1 [0xE0, 0x83, 0xE7, 0xFF, 0x00, 0xAA, 0xBB] 2 _ (by decide) rfl,
   c8_unknown_size_scope.2 [0xE0, 0x83, 0xE7, 0xFF, 0x00, 0xAA, 0xBB] 2 _ (by decide) rfl⟩

/-! ### C9 -/

/-- C9 counterexample: on `[0x80, 0x85]` — an element whose declared end 7
exceeds the buffer length 2 — the Python scanner returns `None` (no error of
any kind), the JavaScript scanner accepts the element with its end beyond
the buffer, and a child walk containing such an element stops silently after
the preceding children.  No `TruncatedElement` error exists. -/
theorem c9_counterexample :
    RenderPy.parse_element_py [0x80, 0x85] 0 = .ok none ∧
    WebmFix.parseElement [0x80, 0x85] 0 =
      .ok (some ⟨0x80, ⟨1, 5, false⟩, 0, 2, 7, 2⟩) ∧
    RenderPy.parse_children_py [0x81, 0x81, 0x41, 0x80, 0x85] 0 5 =
      .ok [⟨0x81, 0, 2, 3, 1, false⟩] := by
  refine ⟨by decide, by decide, by decide⟩

/-- C9 (amended): when an element's declared end exceeds the buffer length
(bounded size, both vints readable), the Python `_parse_element_py` returns
`None` — so the child walk stops silently and a truncated top-level element
surfaces as a missing-header or missing-Segment error — while the JavaScript
`parseElement` accepts the element, its declared end beyond the buffer;
neither scanner raises a `TruncatedElement` error. -/
theorem c9_truncated (data : List Nat) (off id_len eid size_len sz : Nat) (u : Bool)
    (hid : RenderPy.read_vint_py data off false = .ok (id_len, eid, u))
    (hsz : RenderPy.read_vint_py data (off + id_len) true = .ok (size_len, sz, false))
    (hjid : WebmFix.readVint data off false = .ok ⟨id_len, eid, u⟩)
    (hjsz : WebmFix.readVint data (off + id_len) true = .ok ⟨size_len, sz, false⟩)
    (hoff : off < data.length)
    (htrunc : data.length < off + id_len + size_len + sz) :
    RenderPy.parse_element_py data off = .ok none ∧
    WebmFix.parseElement data off =
      .ok (some ⟨eid, ⟨size_len, sz, false⟩, off, off + id_len + size_len,
        off + id_len + size_len + sz, id_len + size_len⟩) := by
  constructor
  · unfold RenderPy.parse_element_py
    rw [if_neg (by omega)]
    simp only [hid, exceptBind_ok, hsz]
    rw [if_pos (by simp; omega)]
  · unfold WebmFix.parseElement
    rw [if_neg (by omega)]
    simp only [hjid, exceptBind_ok, hjsz]
    rfl

theorem c9_witness :
    RenderPy.parse_element_py [0x80, 0x85] 0 = .ok none ∧
    WebmFix.parseElement [0x80, 0x85] 0 =
      .ok (some ⟨0x80, ⟨1, 5, false⟩, 0, 2, 7, 2⟩) :=
  c9_truncated [0x80, 0x85] 0 1 0x80 1 5 false (by decide) (by decide) (by decide)
    (by decide) (by decide) (by decide)

/-! ### C6 -/

theorem encodeFloat64_length (q : ℚ) : (WebmFix.encodeFloat64 q).length = 8 := rfl

/-- The Duration replacement element always assembles: id bytes `44 89`,
size vint `88`, then the eight float64 bytes. -/
theorem durationElem_ok (q : ℚ) :
    WebmFix.encodeElement 0x4489 (WebmFix.encodeFloat64 q) =
      .ok ([0x44, 0x89, 0x88] ++ WebmFix.encodeFloat64 q) := by
  unfold WebmFix.encodeElement
  rw [encodeFloat64_length]
  rw [show WebmFix.encodeVint 8 1 = .ok [0x88] from by decide, exceptBind_ok]
  rfl

theorem scanWebM_nil : WebmFix.scanWebM [] = .error "No EBML header" := by decide

/-- C6 counterexample: `bufNoClusters` scans with zero clusters, the Patcher
emits zero cue points plus the non-fatal warning — but quickCheck on the
patched output returns `ok = true`, not `false`, because the stale
pre-existing cue point survives patching. -/
theorem c6_counterexample :
    (WebmFix.scanWebM (WebmFix.concatBytes [bufNoClusters])).map (fun r => r.clusters) =
      .ok [] ∧
    WebmFix.patchWebM [bufNoClusters] 1000 =
      (some bufNoClustersOut, ["no clusters found for cues"]) ∧
    RenderPy.scan_webm_py bufNoClustersOut = .ok ⟨some (.finite 1), 1⟩ ∧
    RenderPy.okOf ⟨some (.finite 1), 1⟩ = true := by
  refine ⟨by decide, by decide, by decide, by decide⟩

/-- The scan result of `bufNoClusters`. -/
def scanNoClusters : WebmFix.ScanResult :=
  ⟨⟨0x18538067, ⟨1, 20, false⟩, 12, 17, 37, 5⟩,
   some ⟨0x1549A966, ⟨1, 7, false⟩, 17, 22, 29, 5⟩,
   [⟨0x4489, ⟨1, 4, false⟩, 22, 25, 29, 3⟩],
   some ⟨0x1C53BB6B, ⟨1, 3, false⟩, 29, 34, 37, 5⟩,
   [], 1000000⟩

/-- The Info patch the Patcher builds for `bufNoClusters`. -/
def infoPatchNoClusters : WebmFix.Patch :=
  WebmFix.mkPatch 17 29
    ([0x15,0x49,0xA9,0x66,0x8B,0x44,0x89,0x88,0x3F,0xF0,0x00,0x00,0x00,0x00,0x00,0x00])

/-- C6 (amended): on every scannable input with zero clusters whose Info
patch assembles, the Patcher succeeds — applying only the Info patch, hence
generating zero cue points — and records exactly the non-fatal
`no clusters found for cues` warning instead of aborting; and quickCheck
reports `ok = false` on any buffer whose scan yields no cue points (as the
patched output does when the input carried no cue points — though a
pre-existing Cues element survives patching and can make quickCheck return
`ok = true`). -/
theorem c6_zero_clusters (buffers : List (List Nat)) (durationMs : ℚ)
    (res : WebmFix.ScanResult) (ip : WebmFix.Patch)
    (hscan : WebmFix.scanWebM (WebmFix.concatBytes buffers) = .ok res)
    (hcl : res.clusters = [])
    (hip : WebmFix.buildInfoPatch (WebmFix.concatBytes buffers) res
        ([0x44, 0x89, 0x88] ++ WebmFix.encodeFloat64 (max 0 (durationMs / 1000))) = .ok ip) :
    WebmFix.patchWebM buffers durationMs =
      (some (WebmFix.applyPatches (WebmFix.concatBytes buffers) [ip]),
        ["no clusters found for cues"]) ∧
    (∀ (raw : List Nat) (m : RenderPy.PyMeta),
      RenderPy.scan_webm_py raw = .ok m → m.cue_points = 0 → RenderPy.okOf m = false) := by
  constructor
  · have hne : ¬ (WebmFix.concatBytes buffers).length = 0 := by
      intro h0
      rw [List.length_eq_zero] at h0
      rw [h0, scanWebM_nil] at hscan
      exact absurd hscan (by simp)
    have hbody : WebmFix.patchBody buffers durationMs =
        .ok (WebmFix.applyPatches (WebmFix.concatBytes buffers) [ip],
          ["no clusters found for cues"]) := by
      unfold WebmFix.patchBody
      rw [if_neg hne]
      simp only [hscan, exceptBind_ok, durationElem_ok, hip]
      unfold WebmFix.buildCuePoints
      rw [hcl]
      simp only [List.mapM_nil, exceptBind_ok]
      unfold WebmFix.buildCuesPatch
      simp [exceptBind_ok]
    simp [WebmFix.patchWebM, hbody]
  · intro raw m hscanp hc
    unfold RenderPy.okOf
    rw [hc]
    simp

theorem c6_witness :
    WebmFix.patchWebM [bufNoClusters] 1000 =
      (some (WebmFix.applyPatches (WebmFix.concatBytes [bufNoClusters])
        [infoPatchNoClusters]), ["no clusters found for cues"]) ∧
    RenderPy.okOf ⟨none, 0⟩ = false := by
  have h := c6_zero_clusters [bufNoClusters] 1000 scanNoClusters infoPatchNoClusters
    (by decide) (by decide) (by decide)
  exact ⟨h.1, h.2 bufMinimalWebm ⟨none, 0⟩ (by decide) rfl⟩

/-! ### Vint codec lemmas (C1, C5) -/

theorem and_two_pow_eq_zero {b k : Nat} (h : b < 2 ^ k) : b &&& 2 ^ k = 0 := by
  rw [Nat.and_two_pow, Nat.testBit_lt_two_pow h]
  simp

theorem and_two_pow_eq_self {b k : Nat} (hlo : 2 ^ k ≤ b) (hhi : b < 2 ^ (k + 1)) :
    b &&& 2 ^ k = 2 ^ k := by
  have hbit : b.testBit k = true := by
    rw [Nat.testBit_to_div_mod]
    have hdiv : b / 2 ^ k = 1 := by
      apply Nat.div_eq_of_lt_le
      · simpa using hlo
      · have : (1 + 1) * 2 ^ k = 2 ^ (k + 1) := by ring
        omega
    simp [hdiv]
  rw [Nat.and_two_pow, hbit]
  simp

/-- The marker scan starting from `(len, 2 ^ (8 - len))` reaches
`(L, 2 ^ (8 - L))` when byte `b` has its highest set bit at position
`8 - L`. -/
theorem vintFindGo_run (b L : Nat) (hL8 : L ≤ 8) (hlo : 2 ^ (8 - L) ≤ b)
    (hhi : b < 2 ^ (9 - L)) :
    ∀ d len fuel, 1 ≤ len → len + d = L → 9 - len ≤ fuel →
      vintFindGo b fuel len (2 ^ (8 - len)) = (L, 2 ^ (8 - L)) := by
  intro d
  induction d with
  | zero =>
    intro len fuel h1 hlen hfuel
    have hL : len = L := by omega
    subst hL
    obtain ⟨f, rfl⟩ : ∃ f, fuel = f + 1 := ⟨fuel - 1, by omega⟩
    unfold vintFindGo
    rw [if_neg]
    rintro ⟨-, hc2⟩
    have hset : b &&& 2 ^ (8 - len) = 2 ^ (8 - len) := by
      apply and_two_pow_eq_self hlo
      have h9 : 9 - len = (8 - len) + 1 := by omega
      rwa [h9] at hhi
    rw [hc2] at hset
    exact absurd hset.symm (by positivity)
  | succ d ih =>
    intro len fuel h1 hlen hfuel
    obtain ⟨f, rfl⟩ : ∃ f, fuel = f + 1 := ⟨fuel - 1, by omega⟩
    unfold vintFindGo
    rw [if_pos]
    · have hmask : (2 ^ (8 - len)) >>> 1 = 2 ^ (8 - (len + 1)) := by
        have h8 : 8 - len = (8 - (len + 1)) + 1 := by omega
        rw [h8, Nat.shiftRight_eq_div_pow, pow_succ, pow_one,
          Nat.mul_div_cancel _ (by norm_num)]
      rw [hmask]
      exact ih (len + 1) f (by omega) (by omega) (by omega)
    · refine ⟨by omega, ?_⟩
      apply and_two_pow_eq_zero
      calc b < 2 ^ (9 - L) := hhi
        _ ≤ 2 ^ (8 - len) := Nat.pow_le_pow_right (by norm_num) (by omega)

theorem vintFind_eq {b L : Nat} (hL1 : 1 ≤ L) (hL8 : L ≤ 8) (hlo : 2 ^ (8 - L) ≤ b)
    (hhi : b < 2 ^ (9 - L)) : vintFind b = (L, 2 ^ (8 - L)) := by
  have h := vintFindGo_run b L hL8 hlo hhi (L - 1) 1 9 (by omega) (by omega) (by omega)
  simpa [vintFind] using h

theorem foldl_be (l : List Nat) : ∀ a : Nat,
    l.foldl (fun x b => 256 * x + b) a =
      a * 2 ^ (8 * l.length) + l.foldl (fun x b => 256 * x + b) 0 := by
  induction l with
  | nil => intro a; simp
  | cons b t ih =>
    intro a
    simp only [List.foldl_cons, List.length_cons]
    rw [ih (256 * a + b), ih (256 * 0 + b)]
    rw [show 8 * (t.length + 1) = 8 * t.length + 8 from by ring, pow_add]
    ring

theorem beNat_cons (b : Nat) (t : List Nat) :
    beNat (b :: t) = b * 2 ^ (8 * t.length) + beNat t := by
  unfold beNat
  simp only [List.foldl_cons]
  rw [foldl_be t (256 * 0 + b)]
  ring_nf

theorem sliceBytes_length {bytes : List Nat} {s e : Nat} (hs : s ≤ e)
    (he : e ≤ bytes.length) : (sliceBytes bytes s e).length = e - s := by
  unfold sliceBytes
  rw [List.length_take, List.length_drop]
  omega

theorem sliceBytes_cons {bytes : List Nat} {s e b : Nat} (h : bytes.get? s = some b)
    (hse : s < e) : sliceBytes bytes s e = b :: sliceBytes bytes (s + 1) e := by
  rw [List.get?_eq_getElem?] at h
  obtain ⟨hlt, rfl⟩ := List.getElem?_eq_some.mp h
  unfold sliceBytes
  rw [List.drop_eq_getElem_cons hlt, show e - s = (e - (s + 1)) + 1 from by omega,
    List.take_succ_cons]

theorem sliceBytes_nil {bytes : List Nat} {s : Nat} : sliceBytes bytes s s = [] := by
  simp [sliceBytes]

/-- The payload loop over an in-bounds range is the big-endian value of the
byte slice it reads. -/
theorem readFoldBE_slice (bytes : List Nat) (h256 : ∀ b ∈ bytes, b < 256) :
    ∀ (count idx v : Nat), idx + count ≤ bytes.length →
      readFoldBE bytes count idx v =
        .ok (v * 2 ^ (8 * count) + beNat (sliceBytes bytes idx (idx + count))) := by
  intro count
  induction count with
  | zero =>
    intro idx v h
    simp [readFoldBE, sliceBytes_nil, beNat]
  | succ c ih =>
    intro idx v h
    have hidx : idx < bytes.length := by omega
    have hb : bytes.get? idx = some bytes[idx] := by
      rw [List.get?_eq_getElem?]; exact List.getElem?_eq_getElem hidx
    have hb256 : bytes[idx] < 256 := h256 _ (List.getElem_mem hidx)
    simp only [readFoldBE, hb]
    rw [ih (idx + 1) _ (by omega)]
    have hstep : (v <<< 8) ||| bytes[idx] = 256 * v + bytes[idx] := by
      rw [Nat.shiftLeft_eq, mul_comm v]
      have := Nat.mul_add_lt_is_or (show bytes[idx] < 2 ^ 8 from hb256) v
      rw [← this]
    rw [hstep]
    rw [sliceBytes_cons hb (by omega)]
    rw [show idx + (c + 1) = (idx + 1) + c from by omega]
    rw [beNat_cons]
    have hlen : (sliceBytes bytes (idx + 1) (idx + 1 + c)).length = c := by
      rw [sliceBytes_length (by omega) (by omega)]
      omega
    rw [hlen]
    rw [show 8 * (c + 1) = 8 * c + 8 from by ring, pow_add]
    ring_nf

/-- C1: wherever a well-formed vint of length 1 to 8 bytes begins inside a
byte buffer, ID-mode decoding returns the integer formed from all of its
encoded bytes — the big-endian value of the whole L-byte slice, leading
marker bit retained — with the unknown flag false, in both the JavaScript
`readVint` and the Python `_read_vint_py`; in particular the four bytes
`1A 45 DF A3` decode to the element id `0x1A45DFA3` (see the witness). -/
theorem c1_readVint_id_mode (bytes : List Nat) (off L : Nat)
    (h256 : ∀ b ∈ bytes, b < 256)
    (hL1 : 1 ≤ L) (hL8 : L ≤ 8) (hlen : off + L ≤ bytes.length)
    (hlo : 2 ^ (8 - L) ≤ bytes.getD off 0)
    (hhi : bytes.getD off 0 < 2 ^ (9 - L)) :
    WebmFix.readVint bytes off false =
      .ok ⟨L, beNat (sliceBytes bytes off (off + L)), false⟩ ∧
    RenderPy.read_vint_py bytes off false =
      .ok (L, beNat (sliceBytes bytes off (off + L)), false) := by
  have hoff : off < bytes.length := by omega
  have hget : bytes.get? off = some bytes[off] := by
    rw [List.get?_eq_getElem?]; exact List.getElem?_eq_getElem hoff
  have hgetD : bytes.getD off 0 = bytes[off] := by
    simp [List.getD_eq_getElem?_getD, List.getElem?_eq_getElem hoff]
  rw [hgetD] at hlo hhi
  have hfind := vintFind_eq hL1 hL8 hlo hhi
  have hb256 : bytes[off] < 256 := h256 _ (List.getElem_mem hoff)
  have hfold := readFoldBE_slice bytes h256 (L - 1) (off + 1) bytes[off] (by omega)
  have hmask : bytes[off] &&& 0xff = bytes[off] := by
    rw [show (0xff : Nat) = 2 ^ 8 - 1 from rfl]
    exact Nat.and_pow_two_sub_one_of_lt_two_pow hb256
  have hbe : bytes[off] * 2 ^ (8 * (L - 1)) +
      beNat (sliceBytes bytes (off + 1) (off + 1 + (L - 1))) =
      beNat (sliceBytes bytes off (off + L)) := by
    rw [sliceBytes_cons hget (show off < off + L from by omega), beNat_cons]
    have hl : (sliceBytes bytes (off + 1) (off + L)).length = L - 1 := by
      rw [sliceBytes_length (by omega) (by omega)]; omega
    rw [hl, show off + 1 + (L - 1) = off + L from by omega]
  constructor
  · unfold WebmFix.readVint
    simp only [hget, hfind]
    rw [if_neg (show ¬ 8 < L from by omega)]
    simp only [Bool.false_eq_true, if_false, hmask, hfold, Bool.false_and]
    rw [hbe]
  · unfold RenderPy.read_vint_py
    simp only [hget, hfind]
    rw [if_neg (show ¬ 8 < L from by omega)]
    simp only [Bool.false_eq_true, if_false, hfold, Bool.false_and]
    rw [hbe]

theorem c1_witness :
    WebmFix.readVint [0x1A, 0x45, 0xDF, 0xA3] 0 false = .ok ⟨4, 0x1A45DFA3, false⟩ ∧
    RenderPy.read_vint_py [0x1A, 0x45, 0xDF, 0xA3] 0 false = .ok (4, 0x1A45DFA3, false) := by
  have h := c1_readVint_id_mode [0x1A, 0x45, 0xDF, 0xA3] 0 4 (by decide) (by decide)
    (by decide) (by decide) (by decide) (by decide)
  rw [show beNat (sliceBytes [0x1A, 0x45, 0xDF, 0xA3] 0 (0 + 4)) = 0x1A45DFA3 from by decide]
    at h
  exact h

/-! ### C5 -/

theorem toBytesBE_length (n : Nat) : ∀ v, (toBytesBE n v).length = n := by
  induction n with
  | zero => intro v; rfl
  | succ k ih => intro v; simp [toBytesBE, ih]

theorem toBytesBE_mem_lt (n : Nat) : ∀ v, ∀ b ∈ toBytesBE n v, b < 256 := by
  induction n with
  | zero => intro v b hb; simp [toBytesBE] at hb
  | succ k ih =>
    intro v b hb
    simp only [toBytesBE, List.mem_cons] at hb
    rcases hb with rfl | hb
    · exact Nat.and_lt_two_pow _ (show (0xff : Nat) < 2 ^ 8 from by norm_num)
    · exact ih v b hb

theorem beNat_toBytesBE (n : Nat) : ∀ v, beNat (toBytesBE n v) = v % 2 ^ (8 * n) := by
  induction n with
  | zero => intro v; simp [toBytesBE, beNat, Nat.mod_one]
  | succ k ih =>
    intro v
    show beNat (((v >>> (8 * k)) &&& 0xff) :: toBytesBE k v) = v % 2 ^ (8 * (k + 1))
    rw [beNat_cons, toBytesBE_length, ih]
    rw [Nat.shiftRight_eq_div_pow, show (0xff : Nat) = 2 ^ 8 - 1 from rfl,
      Nat.and_pow_two_sub_one_eq_mod]
    rw [show 8 * (k + 1) = 8 * k + 8 from by ring, pow_add, Nat.mod_mul]
    ring

/-- The length-selection loop of `encodeVint` picks, for every value below
the 8-byte capacity, a length whose capacity holds the value and returns the
marked big-endian bytes. -/
theorem encodeVintGo_spec (v : Nat) (hv : v < 2 ^ 56) :
    ∀ f len, 1 ≤ len → len + f = 9 →
      (∀ k, 1 ≤ k → k < len → 2 ^ (7 * k) - 1 < v) →
      ∃ L, len ≤ L ∧ L ≤ 8 ∧ v < 2 ^ (7 * L) ∧
        WebmFix.encodeVintGo v len f = .ok (WebmFix.markTop L (toBytesBE L v)) := by
  intro f
  induction f with
  | zero =>
    intro len h1 hlen hbig
    exfalso
    have := hbig 8 (by omega) (by omega)
    omega
  | succ f ih =>
    intro len h1 hlen hbig
    by_cases hfit : v ≤ 2 ^ (7 * len) - 1
    · refine ⟨len, le_refl _, by omega, ?_, ?_⟩
      · have : 0 < 2 ^ (7 * len) := by positivity
        omega
      · unfold WebmFix.encodeVintGo
        rw [if_pos hfit]
    · have := ih (len + 1) (by omega) (by omega) (fun k hk1 hk2 => by
        rcases Nat.lt_or_ge k len with h | h
        · exact hbig k hk1 h
        · have : k = len := by omega
          subst this
          omega)
      obtain ⟨L, hL1, hL2, hL3, hL4⟩ := this
      refine ⟨L, by omega, hL2, hL3, ?_⟩
      unfold WebmFix.encodeVintGo
      rw [if_neg hfit]
      exact hL4

/-- C5 counterexample: `encodeVint 1` produces `[0x81]`, which ID-mode
decoding returns as `0x81`, not `1` — the marker bit is part of the ID-mode
value — and `encodeVint 127` produces the all-ones byte `[0xFF]`, which
size-mode decoding returns with `unknown = true`, not `false`.  The claimed
round trip fails in both modes. -/
theorem c5_counterexample :
    WebmFix.encodeVint 1 1 = .ok [0x81] ∧
    WebmFix.readVint [0x81] 0 false = .ok ⟨1, 0x81, false⟩ ∧
    (0x81 : Nat) ≠ 1 ∧
    WebmFix.encodeVint 127 1 = .ok [0xFF] ∧
    WebmFix.readVint [0xFF] 0 true = .ok ⟨1, 127, true⟩ := by
  refine ⟨by decide, by decide, by decide, by decide, by decide⟩

/-- General round trip of `encodeVint` through `readVint` in both modes
(shared helper). -/
theorem encodeVint_readVint (v : Nat) (hv : v < 2 ^ 56) :
    ∃ L bs, WebmFix.encodeVint v 1 = .ok bs ∧ bs.length = L ∧ 1 ≤ L ∧ L ≤ 8 ∧
      v < 2 ^ (7 * L) ∧
      WebmFix.readVint bs 0 true = .ok ⟨L, v, decide (v = 2 ^ (7 * L) - 1)⟩ ∧
      WebmFix.readVint bs 0 false = .ok ⟨L, 2 ^ (7 * L) + v, false⟩ := by
  obtain ⟨L, hL1, hL8, hvL, henc⟩ :=
    encodeVintGo_spec v hv 8 1 (le_refl _) rfl (fun k hk1 hk2 => by omega)
  obtain ⟨k, rfl⟩ : ∃ k, L = k + 1 := ⟨L - 1, by omega⟩
  set x := v >>> (8 * k) with hxdef
  have hexp : 8 * k + (8 - (k + 1)) = 7 * (k + 1) := by omega
  have hsplit : 2 ^ (7 * (k + 1)) = 2 ^ (8 * k) * 2 ^ (8 - (k + 1)) := by
    rw [← pow_add, hexp]
  have hxlt : x < 2 ^ (8 - (k + 1)) := by
    rw [hxdef, Nat.shiftRight_eq_div_pow]
    exact Nat.div_lt_of_lt_mul (by omega)
  have hxle8 : x < 2 ^ 8 := by
    calc x < 2 ^ (8 - (k + 1)) := hxlt
    _ ≤ 2 ^ 8 := Nat.pow_le_pow_right (by norm_num) (by omega)
  have hmark : WebmFix.markTop (k + 1) (toBytesBE (k + 1) v) =
      (2 ^ (8 - (k + 1)) + x) :: toBytesBE k v := by
    show ((x &&& 0xff) ||| (1 <<< (8 - (k + 1)))) :: toBytesBE k v = _
    have h1 : x &&& 0xff = x := by
      rw [show (0xff : Nat) = 2 ^ 8 - 1 from rfl]
      exact Nat.and_pow_two_sub_one_of_lt_two_pow hxle8
    have h2 : (1 : Nat) <<< (8 - (k + 1)) = 2 ^ (8 - (k + 1)) := by
      rw [Nat.shiftLeft_eq, one_mul]
    have h3 : x ||| 2 ^ (8 - (k + 1)) = 2 ^ (8 - (k + 1)) + x := by
      rw [Nat.lor_comm]
      have := Nat.mul_add_lt_is_or hxlt 1
      rw [mul_one] at this
      exact this.symm
    rw [h1, h2, h3]
  set b0 := 2 ^ (8 - (k + 1)) + x with hb0def
  set tl := toBytesBE k v with htldef
  have hbs : WebmFix.encodeVint v 1 = .ok (b0 :: tl) := by
    show WebmFix.encodeVintGo v 1 8 = _
    rw [henc, hmark]
  have hlen : (b0 :: tl).length = k + 1 := by
    simp [htldef, toBytesBE_length]
  have hb0lo : 2 ^ (8 - (k + 1)) ≤ b0 := by
    rw [hb0def]; exact Nat.le_add_right _ _
  have hb0hi : b0 < 2 ^ (9 - (k + 1)) := by
    have h9 : 9 - (k + 1) = (8 - (k + 1)) + 1 := by omega
    rw [h9, pow_succ, hb0def]
    calc 2 ^ (8 - (k + 1)) + x < 2 ^ (8 - (k + 1)) + 2 ^ (8 - (k + 1)) :=
      Nat.add_lt_add_left hxlt _
    _ = 2 ^ (8 - (k + 1)) * 2 := by ring
  have hb0256 : b0 < 256 := by
    calc b0 < 2 ^ (9 - (k + 1)) := hb0hi
    _ ≤ 2 ^ 8 := Nat.pow_le_pow_right (by norm_num) (by omega)
  have h256 : ∀ b ∈ b0 :: tl, b < 256 := by
    intro b hb
    rcases List.mem_cons.mp hb with rfl | hb
    · exact hb0256
    · exact toBytesBE_mem_lt k v b hb
  have hget : (b0 :: tl).get? 0 = some b0 := rfl
  have hfind := vintFind_eq (b := b0) (by omega) (by omega) hb0lo hb0hi
  have hfold := readFoldBE_slice (b0 :: tl) h256 k 1
  have hslice : sliceBytes (b0 :: tl) 1 (1 + k) = tl := by
    unfold sliceBytes
    simp only [List.drop_succ_cons, List.drop_zero]
    rw [show 1 + k - 1 = k from by omega]
    exact List.take_of_length_le (by rw [htldef, toBytesBE_length])
  have hbetl : beNat tl = v % 2 ^ (8 * k) := beNat_toBytesBE k v
  have hxval : x * 2 ^ (8 * k) + v % 2 ^ (8 * k) = v := by
    rw [hxdef, Nat.shiftRight_eq_div_pow, mul_comm (v / 2 ^ (8 * k))]
    exact Nat.div_add_mod v (2 ^ (8 * k))
  refine ⟨k + 1, b0 :: tl, hbs, hlen, by omega, by omega, hvL, ?_, ?_⟩
  · unfold WebmFix.readVint
    simp only [hget, hfind, Nat.add_sub_cancel, Nat.zero_add, if_true, if_false]
    rw [if_neg (show ¬ 8 < k + 1 from by omega)]
    have hv0 : b0 &&& (2 ^ (8 - (k + 1)) - 1) = x := by
      rw [Nat.and_pow_two_sub_one_eq_mod, hb0def, Nat.add_mod_left]
      exact Nat.mod_eq_of_lt hxlt
    rw [hv0]
    rw [hfold x (by rw [hlen]; omega)]
    rw [hslice, hbetl, hxval]
    simp
  · unfold WebmFix.readVint
    simp only [hget, hfind, Nat.add_sub_cancel, Nat.zero_add, if_true, if_false,
      Bool.false_eq_true]
    rw [if_neg (show ¬ 8 < k + 1 from by omega)]
    have hv0 : b0 &&& 0xff = b0 := by
      rw [show (0xff : Nat) = 2 ^ 8 - 1 from rfl]
      exact Nat.and_pow_two_sub_one_of_lt_two_pow (by omega)
    rw [hv0]
    rw [hfold b0 (by rw [hlen]; omega)]
    rw [hslice, hbetl]
    have hval : b0 * 2 ^ (8 * k) + v % 2 ^ (8 * k) = 2 ^ (7 * (k + 1)) + v := by
      rw [hb0def, add_mul, add_assoc, hxval, hsplit]
      ring
    rw [hval]
    simp

/-- C5 (amended): for every value representable in at most 8 vint bytes,
decoding `encodeVint v` at the chosen length `L` preserves the value in size
mode, with the unknown flag false except when `v` is exactly the all-ones
payload `2 ^ (7 L) - 1`, where the flag is true; in ID mode decoding returns
`v + 2 ^ (7 L)` — the value with the marker bit ORed in — never `v`
itself. -/
theorem c5_roundtrip (v : Nat) (hv : v < 2 ^ 56) :
    ∃ L bs, WebmFix.encodeVint v 1 = .ok bs ∧ bs.length = L ∧ 1 ≤ L ∧ L ≤ 8 ∧
      v < 2 ^ (7 * L) ∧
      WebmFix.readVint bs 0 true = .ok ⟨L, v, decide (v = 2 ^ (7 * L) - 1)⟩ ∧
      WebmFix.readVint bs 0 false = .ok ⟨L, 2 ^ (7 * L) + v, false⟩ :=
  encodeVint_readVint v hv

theorem c5_witness :
    WebmFix.encodeVint 300 1 = .ok [0x41, 0x2C] ∧
    WebmFix.readVint [0x41, 0x2C] 0 true = .ok ⟨2, 300, false⟩ ∧
    WebmFix.readVint [0x41, 0x2C] 0 false = .ok ⟨2, 2 ^ (7 * 2) + 300, false⟩ := by
  obtain ⟨L, bs, henc, hlen, hL1, hL8, hvL, hsize, hid⟩ := c5_roundtrip 300 (by norm_num)
  have hbs : bs = [0x41, 0x2C] := by
    have : WebmFix.encodeVint 300 1 = .ok [0x41, 0x2C] := by decide
    rw [henc] at this
    exact (Except.ok.injEq _ _ ▸ this)
  have hL : L = 2 := by rw [hbs] at hlen; simpa using hlen.symm
  subst hL
  rw [hbs] at hsize hid
  refine ⟨by decide, ?_, hid⟩
  rw [hsize]
  norm_num

/-! ### C4 infrastructure: encodeUint, small vints, reader shift and extend -/

theorem beNat_append_singleton (l : List Nat) (b : Nat) :
    beNat (l ++ [b]) = 256 * beNat l + b := by
  unfold beNat
  rw [List.foldl_append]
  rfl

theorem encodeUintGo_spec (f : Nat) : ∀ v, v ≤ f →
    beNat (WebmFix.encodeUintGo f v) = v ∧ (∀ b ∈ WebmFix.encodeUintGo f v, b < 256) ∧
    (∀ k, v < 2 ^ (8 * k) → (WebmFix.encodeUintGo f v).length ≤ k) := by
  induction f with
  | zero =>
    intro v hv
    have : v = 0 := by omega
    subst this
    refine ⟨rfl, by simp [WebmFix.encodeUintGo], fun k _ => by simp [WebmFix.encodeUintGo]⟩
  | succ f ih =>
    intro v hv
    by_cases h0 : v = 0
    · subst h0
      refine ⟨rfl, by simp [WebmFix.encodeUintGo], fun k _ => by simp [WebmFix.encodeUintGo]⟩
    · have hstep : WebmFix.encodeUintGo (f + 1) v =
          WebmFix.encodeUintGo f (v >>> 8) ++ [v &&& 0xff] := by
        simp only [WebmFix.encodeUintGo]
        rw [if_neg h0]
      have hle : v >>> 8 ≤ f := by
        rw [Nat.shiftRight_eq_div_pow]
        have : v / 2 ^ 8 < v := Nat.div_lt_self (by omega) (by norm_num)
        omega
      obtain ⟨ihv, ihm, ihl⟩ := ih (v >>> 8) hle
      refine ⟨?_, ?_, ?_⟩
      · rw [hstep, beNat_append_singleton, ihv]
        rw [Nat.shiftRight_eq_div_pow, show (0xff : Nat) = 2 ^ 8 - 1 from rfl,
          Nat.and_pow_two_sub_one_eq_mod]
        have := Nat.div_add_mod v (2 ^ 8)
        omega
      · intro b hb
        rw [hstep] at hb
        rcases List.mem_append.mp hb with hb | hb
        · exact ihm b hb
        · simp only [List.mem_singleton] at hb
          subst hb
          exact Nat.and_lt_two_pow _ (show (0xff : Nat) < 2 ^ 8 from by norm_num)
      · intro k hk
        rw [hstep]
        obtain ⟨j, rfl⟩ : ∃ j, k = j + 1 := by
          refine ⟨k - 1, ?_⟩
          rcases Nat.eq_zero_or_pos k with rfl | hkp
          · simp at hk; omega
          · omega
        have hsh : v >>> 8 < 2 ^ (8 * j) := by
          rw [Nat.shiftRight_eq_div_pow]
          apply Nat.div_lt_of_lt_mul
          rw [show 2 ^ (8 * (j + 1)) = 2 ^ 8 * 2 ^ (8 * j) from by
            rw [← pow_add]; ring_nf] at hk
          omega
        have := ihl j hsh
        simp only [List.length_append, List.length_cons, List.length_nil]
        omega

theorem beNat_encodeUint (v : Nat) : beNat (WebmFix.encodeUint v) = v := by
  unfold WebmFix.encodeUint
  by_cases h : v = 0
  · subst h; rfl
  · rw [if_neg h]
    exact (encodeUintGo_spec v v (le_refl _)).1

theorem encodeUint_mem_lt (v : Nat) : ∀ b ∈ WebmFix.encodeUint v, b < 256 := by
  unfold WebmFix.encodeUint
  by_cases h : v = 0
  · subst h; simp
  · rw [if_neg h]
    exact (encodeUintGo_spec v v (le_refl _)).2.1

theorem encodeUint_length_le {v k : Nat} (hk : 0 < k) (h : v < 2 ^ (8 * k)) :
    (WebmFix.encodeUint v).length ≤ k := by
  unfold WebmFix.encodeUint
  by_cases h0 : v = 0
  · subst h0; simpa using hk
  · rw [if_neg h0]
    exact (encodeUintGo_spec v v (le_refl _)).2.2 k h

/-- A value of at most 126 encodes to the single marked byte `v + 0x80`,
which size-mode decoding returns exactly, unknown flag false. -/
theorem encodeVint_small {v : Nat} (h : v ≤ 126) :
    WebmFix.encodeVint v 1 = .ok [v + 0x80] ∧
    WebmFix.readVint [v + 0x80] 0 true = .ok ⟨1, v, false⟩ := by
  constructor
  · show WebmFix.encodeVintGo v 1 8 = _
    unfold WebmFix.encodeVintGo
    rw [if_pos (show v ≤ 2 ^ (7 * 1) - 1 from by norm_num; omega)]
    show Except.ok (WebmFix.markTop 1 (((v >>> (8 * 0)) &&& 0xff) :: toBytesBE 0 v)) = _
    simp only [Nat.mul_zero, Nat.shiftRight_zero]
    have hv : v &&& 0xff = v :=
      Nat.and_pow_two_sub_one_of_lt_two_pow (show v < 2 ^ 8 from by omega)
    show Except.ok (((v &&& 0xff) ||| (1 <<< (8 - 1))) :: toBytesBE 0 v) = _
    rw [hv]
    have hsl : (1 : Nat) <<< (8 - 1) = 2 ^ 7 := by
      rw [Nat.shiftLeft_eq, one_mul]
    rw [hsl]
    have hor : v ||| 2 ^ 7 = v + 0x80 := by
      rw [Nat.lor_comm]
      have := Nat.mul_add_lt_is_or (show v < 2 ^ 7 from by omega) 1
      rw [mul_one] at this
      rw [← this]
      omega
    rw [hor]
    rfl
  · unfold WebmFix.readVint
    have hget : [v + 0x80].get? 0 = some (v + 0x80) := rfl
    have hfind := vintFind_eq (b := v + 0x80) (L := 1) (by omega) (by omega)
      (by rw [show (2 : Nat) ^ (8 - 1) = 128 from by norm_num]; omega)
      (by rw [show (2 : Nat) ^ (9 - 1) = 256 from by norm_num]; omega)
    simp only [hget, hfind]
    rw [if_neg (show ¬ (8 : Nat) < 1 from by omega)]
    have hv0 : (v + 0x80) &&& (2 ^ (8 - 1) - 1) = v := by
      rw [Nat.and_pow_two_sub_one_eq_mod]
      rw [show (2 : Nat) ^ (8 - 1) = 128 from by norm_num]
      omega
    simp only [if_true]
    rw [hv0]
    rw [show (1 : Nat) - 1 = 0 from rfl]
    rw [show readFoldBE [v + 0x80] 0 (0 + 1) v = .ok v from rfl]
    have hne : ¬ v = 127 := by omega
    simp [hne]

/-! #### Shifting and extending the parse primitives across list appends -/

theorem getq_append_shift (P t : List Nat) (k : Nat) :
    (P ++ t).get? (P.length + k) = t.get? k := by
  rw [List.get?_eq_getElem?, List.get?_eq_getElem?,
    List.getElem?_append_right (Nat.le_add_right _ _)]
  congr 1
  omega

theorem getq_append_left {bs : List Nat} {k b : Nat}
    (h : bs.get? k = some b) (t : List Nat) : (bs ++ t).get? k = some b := by
  rw [List.get?_eq_getElem?] at h
  obtain ⟨hk, -⟩ := List.getElem?_eq_some.mp h
  rw [List.get?_eq_getElem?, List.getElem?_append, if_pos hk]
  exact h

theorem readFoldBE_shift (P t : List Nat) :
    ∀ count idx v, readFoldBE (P ++ t) count (P.length + idx) v = readFoldBE t count idx v := by
  intro count
  induction count with
  | zero => intro idx v; rfl
  | succ c ih =>
    intro idx v
    simp only [readFoldBE]
    rw [getq_append_shift]
    cases ht : t.get? idx with
    | none => rfl
    | some b =>
      have := ih (idx + 1) ((v <<< 8) ||| b)
      rw [show P.length + (idx + 1) = P.length + idx + 1 from by omega] at this
      exact this

theorem readFoldBE_extend (bs t : List Nat) :
    ∀ count idx v w, readFoldBE bs count idx v = .ok w →
      readFoldBE (bs ++ t) count idx v = .ok w := by
  intro count
  induction count with
  | zero => intro idx v w h; exact h
  | succ c ih =>
    intro idx v w h
    simp only [readFoldBE] at h ⊢
    cases hb : bs.get? idx with
    | none =>
      simp only [hb] at h
      exact absurd h (by simp)
    | some b =>
      simp only [hb] at h
      rw [getq_append_left hb]
      exact ih _ _ _ h

theorem readVint_shift (P t : List Nat) (k : Nat) (m : Bool) :
    WebmFix.readVint (P ++ t) (P.length + k) m = WebmFix.readVint t k m := by
  unfold WebmFix.readVint
  rw [getq_append_shift]
  cases t.get? k with
  | none => rfl
  | some first =>
    simp only [show P.length + k + 1 = P.length + (k + 1) from by omega, readFoldBE_shift]

theorem readVint_extend {bs : List Nat} {off : Nat} {m : Bool} {vi : WebmFix.Vint}
    (h : WebmFix.readVint bs off m = .ok vi) (t : List Nat) :
    WebmFix.readVint (bs ++ t) off m = .ok vi := by
  unfold WebmFix.readVint at h ⊢
  cases hb : bs.get? off with
  | none =>
    simp only [hb] at h
    exact absurd h (by simp)
  | some first =>
    simp only [hb] at h
    simp only [getq_append_left hb t]
    split at h
    · exact absurd h (by simp)
    · rename_i h8
      rw [if_neg h8]
      split at h
      · exact absurd h (by simp)
      · rename_i value heq
        rw [readFoldBE_extend bs t _ _ _ _ heq]
        exact h

theorem readUInt_shift (P t : List Nat) (k len : Nat) :
    WebmFix.readUInt (P ++ t) (P.length + k) len = WebmFix.readUInt t k len :=
  readFoldBE_shift P t len k 0

theorem readUInt_extend {bs : List Nat} {k len w : Nat}
    (h : WebmFix.readUInt bs k len = .ok w) (t : List Nat) :
    WebmFix.readUInt (bs ++ t) k len = .ok w :=
  readFoldBE_extend bs t len k 0 w h

/-- Offset translation of an element record, as produced by parsing the same
bytes behind a prefix of length `d`. -/
def shiftElem (d : Nat) (el : WebmFix.Elem) : WebmFix.Elem :=
  ⟨el.id, el.size, d + el.start, d + el.dataOffset, d + el.endPos, el.headerLength⟩

theorem parseElement_shift (P t : List Nat) (k : Nat) :
    WebmFix.parseElement (P ++ t) (P.length + k) =
      (WebmFix.parseElement t k).map (Option.map (shiftElem P.length)) := by
  unfold WebmFix.parseElement
  rw [List.length_append]
  by_cases hk : t.length ≤ k
  · rw [if_pos (show P.length + t.length ≤ P.length + k from by omega), if_pos hk]
    rfl
  · rw [if_neg (show ¬ P.length + t.length ≤ P.length + k from by omega), if_neg hk]
    rw [readVint_shift]
    cases hidv : WebmFix.readVint t k false with
    | error e => simp only [hidv, exceptBind_error, Except.map]
    | ok idv =>
      simp only [hidv, exceptBind_ok]
      rw [show P.length + k + idv.length = P.length + (k + idv.length) from by omega,
        readVint_shift]
      cases hsz : WebmFix.readVint t (k + idv.length) true with
      | error e => simp only [hsz, exceptBind_error, Except.map]
      | ok size =>
        simp only [hsz, exceptBind_ok, Except.map, Option.map, shiftElem]
        cases hu : size.unknown with
        | false =>
          simp only [hu, if_false, Bool.false_eq_true]
          simp only [Except.ok.injEq, Option.some.injEq, WebmFix.Elem.mk.injEq,
            true_and, and_true]
          omega
        | true =>
          simp only [hu, if_true]
          simp only [Except.ok.injEq, Option.some.injEq, WebmFix.Elem.mk.injEq,
            List.length_append, true_and, and_true]
          omega

theorem parseChildrenGo_shift (P t : List Nat) (endB : Nat) :
    ∀ fuel off, WebmFix.parseChildrenGo (P ++ t) (P.length + endB) fuel (P.length + off) =
      (WebmFix.parseChildrenGo t endB fuel off).map (List.map (shiftElem P.length)) := by
  intro fuel
  induction fuel with
  | zero => intro off; rfl
  | succ f ih =>
    intro off
    simp only [WebmFix.parseChildrenGo]
    by_cases hb : off < endB
    · rw [if_pos hb, if_pos (show P.length + off < P.length + endB from by omega)]
      rw [parseElement_shift]
      cases hpe : WebmFix.parseElement t off with
      | error e => simp only [hpe, Except.map, exceptBind_error]
      | ok oel =>
        cases oel with
        | none =>
          simp only [hpe, Except.map, Option.map, exceptBind_ok, List.map]
        | some el =>
          simp only [hpe, Except.map, Option.map, exceptBind_ok]
          by_cases hse : el.start = el.endPos
          · rw [if_pos hse, if_pos (show (shiftElem P.length el).start =
              (shiftElem P.length el).endPos from by simp only [shiftElem]; omega)]
            rfl
          · rw [if_neg hse, if_neg (show ¬ (shiftElem P.length el).start =
              (shiftElem P.length el).endPos from by simp only [shiftElem]; omega)]
            rw [show (shiftElem P.length el).endPos = P.length + el.endPos from rfl,
              ih el.endPos]
            cases WebmFix.parseChildrenGo t endB f el.endPos with
            | error e => simp only [Except.map, exceptBind_error]
            | ok rest => simp only [Except.map, exceptBind_ok, List.map]
    · rw [if_neg hb, if_neg (show ¬ P.length + off < P.length + endB from by omega)]
      rfl

theorem parseChildren_shift (P t : List Nat) (s e : Nat) :
    WebmFix.parseChildren (P ++ t) (P.length + s) (P.length + e) =
      (WebmFix.parseChildren t s e).map (List.map (shiftElem P.length)) := by
  unfold WebmFix.parseChildren
  rw [show P.length + e + 1 - (P.length + s) = e + 1 - s from by omega]
  exact parseChildrenGo_shift P t e (e + 1 - s) s

/-! #### Parsing an encoded element and a concatenation of encoded elements -/

theorem parseElement_build (idB szv data rest : List Nat) (idv sv : WebmFix.Vint)
    (hid : WebmFix.readVint idB 0 false = .ok idv)
    (hidlen : idv.length = idB.length) (hpos : 0 < idB.length)
    (hsz : WebmFix.readVint szv 0 true = .ok sv)
    (hszlen : sv.length = szv.length)
    (hsv : sv.value = data.length) (hsu : sv.unknown = false) :
    WebmFix.parseElement (idB ++ szv ++ data ++ rest) 0 =
      .ok (some ⟨idv.value, sv, 0, idB.length + szv.length,
        idB.length + szv.length + data.length, idB.length + szv.length⟩) := by
  unfold WebmFix.parseElement
  rw [if_neg (show ¬ (idB ++ szv ++ data ++ rest).length ≤ 0 from by
    simp only [List.length_append, Nat.le_zero]
    omega)]
  have hassoc : idB ++ szv ++ data ++ rest = idB ++ (szv ++ (data ++ rest)) := by
    simp [List.append_assoc]
  rw [hassoc]
  have hid2 : WebmFix.readVint (idB ++ (szv ++ (data ++ rest))) 0 false = .ok idv :=
    readVint_extend hid _
  simp only [hid2, exceptBind_ok]
  have hsz2 : WebmFix.readVint (szv ++ (data ++ rest)) 0 true = .ok sv :=
    readVint_extend hsz _
  have hshift : WebmFix.readVint (idB ++ (szv ++ (data ++ rest))) (0 + idv.length) true
      = .ok sv := by
    rw [show (0 : Nat) + idv.length = idB.length + 0 from by omega, readVint_shift]
    exact hsz2
  simp only [hshift, exceptBind_ok]
  rw [hsu]
  simp only [if_false, Bool.false_eq_true]
  simp only [Except.ok.injEq, Option.some.injEq, WebmFix.Elem.mk.injEq, true_and, and_true]
  omega

/-- A byte block paired with the element record that parsing it at offset 0
yields, whatever follows it in the buffer. -/
def GoodBlock (p : List Nat × WebmFix.Elem) : Prop :=
  0 < p.1.length ∧ p.2.start = 0 ∧ p.2.endPos = p.1.length ∧
    ∀ rest, WebmFix.parseElement (p.1 ++ rest) 0 = .ok (some p.2)

/-- The element records of a run of blocks laid out from offset `d`. -/
def blockElems (d : Nat) : List (List Nat × WebmFix.Elem) → List WebmFix.Elem
  | [] => []
  | (b, e) :: t => shiftElem d e :: blockElems (d + b.length) t

theorem blocks_length_le (bs : List (List Nat × WebmFix.Elem))
    (h : ∀ p ∈ bs, 0 < p.1.length) :
    bs.length ≤ ((bs.map Prod.fst).flatten).length := by
  induction bs with
  | nil => simp
  | cons p t ih =>
    simp only [List.map_cons, List.flatten_cons, List.length_append, List.length_cons]
    have h1 := h p (List.mem_cons_self _ _)
    have h2 := ih (fun q hq => h q (List.mem_cons_of_mem _ hq))
    omega

theorem parseChildrenGo_blocks :
    ∀ (bs : List (List Nat × WebmFix.Elem)) (pre R : List Nat) (fuel endB : Nat),
      (∀ p ∈ bs, GoodBlock p) → bs.length < fuel →
      endB = pre.length + ((bs.map Prod.fst).flatten).length →
      WebmFix.parseChildrenGo (pre ++ ((bs.map Prod.fst).flatten ++ R)) endB fuel pre.length
        = .ok (blockElems pre.length bs) := by
  intro bs
  induction bs with
  | nil =>
    intro pre R fuel endB hgood hfuel hend
    cases fuel with
    | zero => rfl
    | succ f =>
      simp only [WebmFix.parseChildrenGo]
      rw [if_neg (show ¬ pre.length < endB from by
        simp only [List.map_nil, List.flatten_nil, List.length_nil] at hend
        omega)]
      rfl
  | cons p bs ih =>
    intro pre R fuel endB hgood hfuel hend
    obtain ⟨b, e⟩ := p
    have hg := hgood (b, e) (List.mem_cons_self _ _)
    have hbpos : 0 < b.length := hg.1
    have hstart : e.start = 0 := hg.2.1
    have hendb : e.endPos = b.length := hg.2.2.1
    have hparse : ∀ rest, WebmFix.parseElement (b ++ rest) 0 = .ok (some e) := hg.2.2.2
    cases fuel with
    | zero => simp at hfuel
    | succ f =>
      simp only [List.map_cons, List.flatten_cons] at hend ⊢
      rw [List.length_append] at hend
      simp only [WebmFix.parseChildrenGo]
      rw [if_pos (show pre.length < endB from by omega)]
      have h1 : WebmFix.parseElement (pre ++ (b ++ (bs.map Prod.fst).flatten ++ R))
          (pre.length + 0) = .ok (some (shiftElem pre.length e)) := by
        rw [parseElement_shift, show b ++ (bs.map Prod.fst).flatten ++ R
          = b ++ ((bs.map Prod.fst).flatten ++ R) from by rw [List.append_assoc],
          hparse ((bs.map Prod.fst).flatten ++ R)]
        rfl
      rw [Nat.add_zero] at h1
      simp only [h1, exceptBind_ok]
      rw [if_neg (show ¬ (shiftElem pre.length e).start = (shiftElem pre.length e).endPos from by
        simp only [shiftElem]
        omega)]
      have h2 : WebmFix.parseChildrenGo (pre ++ (b ++ (bs.map Prod.fst).flatten ++ R)) endB f
          (pre ++ b).length = .ok (blockElems (pre ++ b).length bs) := by
        have hx := ih (pre ++ b) R f endB (fun q hq => hgood q (List.mem_cons_of_mem _ hq))
          (by simp only [List.length_cons] at hfuel; omega)
          (by rw [List.length_append]; omega)
        rw [show (pre ++ b) ++ ((bs.map Prod.fst).flatten ++ R)
          = pre ++ (b ++ (bs.map Prod.fst).flatten ++ R) from by simp [List.append_assoc]] at hx
        exact hx
      rw [show (shiftElem pre.length e).endPos = (pre ++ b).length from by
        simp only [shiftElem, List.length_append]; omega]
      simp only [h2, exceptBind_ok]
      simp only [blockElems, List.length_append]

theorem parseChildren_blocks (bs : List (List Nat × WebmFix.Elem)) (pre R : List Nat)
    (hgood : ∀ p ∈ bs, GoodBlock p) :
    WebmFix.parseChildren (pre ++ ((bs.map Prod.fst).flatten ++ R)) pre.length
      (pre.length + ((bs.map Prod.fst).flatten).length)
      = .ok (blockElems pre.length bs) := by
  unfold WebmFix.parseChildren
  apply parseChildrenGo_blocks bs pre R _ _ hgood _ rfl
  have := blocks_length_le bs (fun q hq => (hgood q hq).1)
  omega

/-- `encodeElement` for a payload of at most 126 bytes: one marked size
byte. -/
theorem encodeElement_small (id : Nat) {data : List Nat} (h : data.length ≤ 126) :
    WebmFix.encodeElement id data =
      .ok (WebmFix.idToBytes id ++ [data.length + 0x80] ++ data) := by
  unfold WebmFix.encodeElement
  rw [(encodeVint_small h).1]
  simp only [exceptBind_ok]

/-! #### The generated cue points: explicit byte shapes -/

theorem readUInt_encodeUint (v : Nat) :
    WebmFix.readUInt (WebmFix.encodeUint v) 0 (WebmFix.encodeUint v).length = .ok v := by
  unfold WebmFix.readUInt
  rw [readFoldBE_slice (WebmFix.encodeUint v) (encodeUint_mem_lt v)
    (WebmFix.encodeUint v).length 0 0 (by omega)]
  have hs : sliceBytes (WebmFix.encodeUint v) 0 (0 + (WebmFix.encodeUint v).length)
      = WebmFix.encodeUint v := by
    unfold sliceBytes
    simp
  rw [hs, beNat_encodeUint, Nat.zero_mul, Nat.zero_add]

/-- The CueClusterPosition value as computed by `buildCuePoint`: the adjusted
cluster start relative to the Segment data start, clamped at zero. -/
def cueRel (res : WebmFix.ScanResult) (adjust : Nat → Int) (c : WebmFix.Cluster) : Nat :=
  (max 0 (adjust c.start - (res.segment.dataOffset : Int))).toNat

/-- The byte range `buildCuesPatch` replaces: an existing Cues element, or
the zero-width insertion point at the Segment end (buffer end when the
Segment size is unknown). -/
def cuesPatchStart (merged : List Nat) (res : WebmFix.ScanResult) : Nat :=
  match res.cues with
  | some c => c.start
  | none => if res.segment.size.unknown then merged.length else res.segment.endPos

def cuesPatchEnd (merged : List Nat) (res : WebmFix.ScanResult) : Nat :=
  match res.cues with
  | some c => c.endPos
  | none => if res.segment.size.unknown then merged.length else res.segment.endPos

def cueTimeBytes (c : WebmFix.Cluster) : List Nat :=
  [0xB3] ++ [(WebmFix.encodeUint c.timecode).length + 0x80] ++ WebmFix.encodeUint c.timecode

def cueTrackBytes : List Nat := [0xF7, 0x81, 1]

def cuePosBytes (rel : Nat) : List Nat :=
  [0xF1] ++ [(WebmFix.encodeUint rel).length + 0x80] ++ WebmFix.encodeUint rel

def positionsBytes (rel : Nat) : List Nat :=
  [0xB7] ++ [(cueTrackBytes ++ cuePosBytes rel).length + 0x80] ++
    (cueTrackBytes ++ cuePosBytes rel)

def cuePointBytes (res : WebmFix.ScanResult) (adjust : Nat → Int) (c : WebmFix.Cluster) :
    List Nat :=
  [0xBB] ++ [(cueTimeBytes c ++ positionsBytes (cueRel res adjust c)).length + 0x80] ++
    (cueTimeBytes c ++ positionsBytes (cueRel res adjust c))

theorem buildCuePoint_eq (res : WebmFix.ScanResult) (adjust : Nat → Int) (c : WebmFix.Cluster)
    (htc : c.timecode < 2 ^ 56) (hrel : cueRel res adjust c < 2 ^ 56) :
    WebmFix.buildCuePoint res adjust c = .ok (cuePointBytes res adjust c) := by
  have htlen : (WebmFix.encodeUint c.timecode).length ≤ 7 :=
    @encodeUint_length_le c.timecode 7 (by norm_num) htc
  have hrlen : (WebmFix.encodeUint (cueRel res adjust c)).length ≤ 7 :=
    @encodeUint_length_le (cueRel res adjust c) 7 (by norm_num) hrel
  have e1 : WebmFix.encodeElement 0xB3 (WebmFix.encodeUint c.timecode)
      = .ok (cueTimeBytes c) := by
    rw [encodeElement_small 0xB3 (by omega)]
    rfl
  have e2 : WebmFix.encodeElement 0xF7 (WebmFix.encodeUint 1) = .ok cueTrackBytes := by
    rw [encodeElement_small 0xF7 (by decide)]
    rfl
  have e3 : WebmFix.encodeElement 0xF1 (WebmFix.encodeUint (cueRel res adjust c))
      = .ok (cuePosBytes (cueRel res adjust c)) := by
    rw [encodeElement_small 0xF1 (by omega)]
    rfl
  have e4 : WebmFix.encodeElement 0xB7 (cueTrackBytes ++ cuePosBytes (cueRel res adjust c))
      = .ok (positionsBytes (cueRel res adjust c)) := by
    rw [encodeElement_small 0xB7 (by
      simp only [cueTrackBytes, cuePosBytes, List.length_append, List.length_cons,
        List.length_nil]
      omega)]
    rfl
  have e5 : WebmFix.encodeElement 0xBB
      (cueTimeBytes c ++ positionsBytes (cueRel res adjust c))
      = .ok (cuePointBytes res adjust c) := by
    rw [encodeElement_small 0xBB (by
      simp only [cueTimeBytes, positionsBytes, cueTrackBytes, cuePosBytes,
        List.length_append, List.length_cons, List.length_nil]
      omega)]
    rfl
  simp only [WebmFix.buildCuePoint]
  simp only [show (max 0 (adjust c.start - (res.segment.dataOffset : Int))).toNat
    = cueRel res adjust c from rfl]
  simp only [e1, exceptBind_ok, e2, e3, e4]
  exact e5

theorem buildCuePoints_eq (res : WebmFix.ScanResult) (adjust : Nat → Int)
    (h : ∀ c ∈ res.clusters, c.timecode < 2 ^ 56 ∧ cueRel res adjust c < 2 ^ 56) :
    WebmFix.buildCuePoints res adjust
      = .ok (res.clusters.map (cuePointBytes res adjust)) := by
  unfold WebmFix.buildCuePoints
  have hmain : ∀ (l : List WebmFix.Cluster),
      (∀ c ∈ l, c.timecode < 2 ^ 56 ∧ cueRel res adjust c < 2 ^ 56) →
      l.mapM (WebmFix.buildCuePoint res adjust) = .ok (l.map (cuePointBytes res adjust)) := by
    intro l
    induction l with
    | nil => intro _; rfl
    | cons c t ih =>
      intro hl
      obtain ⟨htc, hrel⟩ := hl c (List.mem_cons_self _ _)
      rw [List.mapM_cons, buildCuePoint_eq res adjust c htc hrel]
      simp only [exceptBind_ok]
      rw [ih (fun d hd => hl d (List.mem_cons_of_mem _ hd))]
      rfl
  exact hmain res.clusters h

/-- A one-byte-id, one-byte-size encoded element is a good block. -/
theorem goodBlock_small (idB : List Nat) (idval : Nat) (data : List Nat) (L : Nat)
    (hid : WebmFix.readVint idB 0 false = .ok ⟨L, idval, false⟩)
    (hidlen : L = idB.length) (hpos : 0 < idB.length)
    (hdl : data.length ≤ 126) :
    GoodBlock (idB ++ [data.length + 0x80] ++ data,
      ⟨idval, ⟨1, data.length, false⟩, 0, idB.length + 1,
        idB.length + 1 + data.length, idB.length + 1⟩) := by
  refine ⟨?_, rfl, ?_, ?_⟩
  · simp [List.length_append]
  · simp only [List.length_append, List.length_cons, List.length_nil]
  · intro rest
    have hb := parseElement_build idB [data.length + 0x80] data rest ⟨L, idval, false⟩
      ⟨1, data.length, false⟩ hid hidlen hpos (encodeVint_small hdl).2 rfl rfl rfl
    rw [show (idB ++ [data.length + 0x80] ++ data) ++ rest
      = idB ++ [data.length + 0x80] ++ data ++ rest from by simp [List.append_assoc]]
    simpa using hb

/-! #### Patch application layout and slice algebra -/

theorem applyPatches_two (merged : List Nat) (ip cp : WebmFix.Patch)
    (h : ¬ cp.start ≤ ip.start) :
    WebmFix.applyPatches merged [ip, cp] = WebmFix.spliceP (WebmFix.spliceP merged cp) ip := by
  unfold WebmFix.applyPatches
  have hs : [ip, cp].insertionSort (fun a b => b.start ≤ a.start) = [cp, ip] := by
    simp [List.insertionSort, List.orderedInsert, h]
  rw [hs]
  rfl

theorem spliceP_two_layout (merged : List Nat) (ip cp : WebmFix.Patch)
    (h1 : ip.start ≤ ip.endPos) (h2 : ip.endPos ≤ cp.start) (h3 : cp.start ≤ merged.length) :
    WebmFix.spliceP (WebmFix.spliceP merged cp) ip =
      merged.take ip.start ++ ip.data ++ sliceBytes merged ip.endPos cp.start
        ++ cp.data ++ merged.drop cp.endPos := by
  unfold WebmFix.spliceP
  have hA : (merged.take cp.start).length = cp.start := by
    rw [List.length_take]
    omega
  have htake : (merged.take cp.start ++ cp.data ++ merged.drop cp.endPos).take ip.start
      = merged.take ip.start := by
    rw [List.append_assoc, List.take_append_of_le_length (by omega), List.take_take]
    congr 1
    omega
  have hdrop : (merged.take cp.start ++ cp.data ++ merged.drop cp.endPos).drop ip.endPos
      = sliceBytes merged ip.endPos cp.start ++ (cp.data ++ merged.drop cp.endPos) := by
    rw [List.append_assoc, List.drop_append_of_le_length (by omega), List.drop_take]
    rfl
  rw [htake, hdrop]
  simp [List.append_assoc]

theorem sliceBytes_append_shift (A B : List Nat) (a b : Nat) :
    sliceBytes (A ++ B) (A.length + a) (A.length + b) = sliceBytes B a b := by
  unfold sliceBytes
  rw [List.drop_append_eq_append_drop, List.drop_eq_nil_of_le (Nat.le_add_right _ _),
    List.nil_append, show A.length + a - A.length = a from by omega,
    show A.length + b - (A.length + a) = b - a from by omega]

theorem sliceBytes_append_left (B Z : List Nat) (a b : Nat) (hb : b ≤ B.length) :
    sliceBytes (B ++ Z) a b = sliceBytes B a b := by
  unfold sliceBytes
  rw [List.drop_append_eq_append_drop, List.take_append_of_le_length (by
    rw [List.length_drop]
    omega)]

theorem sliceBytes_slice (m : List Nat) (s e a b : Nat) (hbe : s + b ≤ e) :
    sliceBytes (sliceBytes m s e) a b = sliceBytes m (s + a) (s + b) := by
  unfold sliceBytes
  rw [List.drop_take, List.take_take, List.drop_drop]
  rw [show s + b - (s + a) = b - a from by omega,
    show (b - a) ⊓ (e - s - a) = b - a from by omega]

/-! #### The generated Cues element decodes to the adjusted positions -/

/-- The element record of one generated CuePoint, relative to its own
start. -/
def cpElem (res : WebmFix.ScanResult) (adjust : Nat → Int) (c : WebmFix.Cluster) :
    WebmFix.Elem :=
  ⟨0xBB, ⟨1, (cueTimeBytes c ++ positionsBytes (cueRel res adjust c)).length, false⟩, 0, 2,
    2 + (cueTimeBytes c ++ positionsBytes (cueRel res adjust c)).length, 2⟩

theorem cuePoint_payload_le (res : WebmFix.ScanResult) (adjust : Nat → Int)
    (c : WebmFix.Cluster) (htc : c.timecode < 2 ^ 56) (hrel : cueRel res adjust c < 2 ^ 56) :
    (cueTimeBytes c ++ positionsBytes (cueRel res adjust c)).length ≤ 126 := by
  have ht := @encodeUint_length_le c.timecode 7 (by norm_num) htc
  have hr := @encodeUint_length_le (cueRel res adjust c) 7 (by norm_num) hrel
  simp only [cueTimeBytes, positionsBytes, cueTrackBytes, cuePosBytes, List.length_append,
    List.length_cons, List.length_nil]
  omega

theorem blockElems_id (res : WebmFix.ScanResult) (adjust : Nat → Int) :
    ∀ (l : List WebmFix.Cluster) (d : Nat) (x : WebmFix.Elem),
      x ∈ blockElems d (l.map (fun c => (cuePointBytes res adjust c, cpElem res adjust c))) →
      x.id = 0xBB := by
  intro l
  induction l with
  | nil =>
    intro d x hx
    simp [blockElems] at hx
  | cons c t ih =>
    intro d x hx
    simp only [List.map_cons, blockElems, List.mem_cons] at hx
    rcases hx with rfl | hx
    · rfl
    · exact ih _ x hx

theorem mapM_blockElems {β : Type} (out : List Nat) (res : WebmFix.ScanResult)
    (adjust : Nat → Int) (f : WebmFix.Elem → Except String β)
    (g : WebmFix.Cluster → β) :
    ∀ (l : List WebmFix.Cluster) (pre R : List Nat),
      out = pre ++ ((l.map (cuePointBytes res adjust)).flatten ++ R) →
      (∀ c pre2 R2, out = pre2 ++ (cuePointBytes res adjust c ++ R2) → c ∈ l →
        f (shiftElem pre2.length (cpElem res adjust c)) = .ok (g c)) →
      (blockElems pre.length
          (l.map (fun c => (cuePointBytes res adjust c, cpElem res adjust c)))).mapM f
        = .ok (l.map g) := by
  intro l
  induction l with
  | nil =>
    intro pre R hout hf
    rfl
  | cons c t ih =>
    intro pre R hout hf
    simp only [List.map_cons, blockElems]
    rw [List.mapM_cons]
    have hout2 : out = pre ++ (cuePointBytes res adjust c
        ++ ((t.map (cuePointBytes res adjust)).flatten ++ R)) := by
      rw [hout]
      simp [List.append_assoc]
    rw [hf c pre _ hout2 (List.mem_cons_self _ _)]
    simp only [exceptBind_ok]
    have hout3 : out = (pre ++ cuePointBytes res adjust c)
        ++ ((t.map (cuePointBytes res adjust)).flatten ++ R) := by
      rw [hout2]
      simp [List.append_assoc]
    have := ih (pre ++ cuePointBytes res adjust c) R hout3
      (fun d pre2 R2 ho hd => hf d pre2 R2 ho (List.mem_cons_of_mem _ hd))
    rw [List.length_append] at this
    rw [this]
    rfl

/-- The concatenated CuePoint bytes generated by `buildCuePoints`. -/
def genCuesData (res : WebmFix.ScanResult) (adjust : Nat → Int) : List Nat :=
  (res.clusters.map (cuePointBytes res adjust)).flatten

theorem decodeCuePositions_generated (res : WebmFix.ScanResult) (adjust : Nat → Int)
    (pre R szv : List Nat) (sv : WebmFix.Vint)
    (hsm : ∀ c ∈ res.clusters, c.timecode < 2 ^ 56 ∧ cueRel res adjust c < 2 ^ 56)
    (hsz : WebmFix.readVint szv 0 true = .ok sv)
    (hszlen : sv.length = szv.length)
    (hsv : sv.value = (genCuesData res adjust).length)
    (hsu : sv.unknown = false) :
    WebmFix.parseElement
        (pre ++ (([0x1C, 0x53, 0xBB, 0x6B] ++ szv ++ genCuesData res adjust) ++ R)) pre.length
      = .ok (some (shiftElem pre.length
          ⟨0x1C53BB6B, sv, 0, 4 + szv.length,
            4 + szv.length + (genCuesData res adjust).length, 4 + szv.length⟩)) ∧
    WebmFix.decodeCuePositions
        (pre ++ (([0x1C, 0x53, 0xBB, 0x6B] ++ szv ++ genCuesData res adjust) ++ R))
        (shiftElem pre.length
          ⟨0x1C53BB6B, sv, 0, 4 + szv.length,
            4 + szv.length + (genCuesData res adjust).length, 4 + szv.length⟩)
      = .ok (res.clusters.map (cueRel res adjust)) := by
  have hpe : WebmFix.parseElement
      (([0x1C, 0x53, 0xBB, 0x6B] ++ szv ++ genCuesData res adjust) ++ R) 0
      = .ok (some ⟨0x1C53BB6B, sv, 0, 4 + szv.length,
          4 + szv.length + (genCuesData res adjust).length, 4 + szv.length⟩) := by
    have hb := parseElement_build [0x1C, 0x53, 0xBB, 0x6B] szv (genCuesData res adjust) R
      ⟨4, 0x1C53BB6B, false⟩ sv (by decide) rfl (by decide) hsz hszlen hsv hsu
    exact hb
  constructor
  · have h := parseElement_shift pre
      (([0x1C, 0x53, 0xBB, 0x6B] ++ szv ++ genCuesData res adjust) ++ R) 0
    rw [Nat.add_zero] at h
    rw [h, hpe]
    rfl
  · unfold WebmFix.decodeCuePositions
    have hgood : ∀ p ∈ res.clusters.map
        (fun c => (cuePointBytes res adjust c, cpElem res adjust c)), GoodBlock p := by
      intro p hp
      simp only [List.mem_map] at hp
      obtain ⟨c, hc, rfl⟩ := hp
      obtain ⟨htc, hrel⟩ := hsm c hc
      exact goodBlock_small [0xBB] 0xBB _ 1 (by decide) rfl (by decide)
        (cuePoint_payload_le res adjust c htc hrel)
    have hch0 := parseChildren_blocks
      (res.clusters.map (fun c => (cuePointBytes res adjust c, cpElem res adjust c)))
      (pre ++ ([0x1C, 0x53, 0xBB, 0x6B] ++ szv)) R hgood
    have hflat : (((res.clusters.map
          (fun c => (cuePointBytes res adjust c, cpElem res adjust c))).map Prod.fst).flatten)
        = genCuesData res adjust := by
      rw [List.map_map]
      rfl
    rw [hflat] at hch0
    have hlen : (pre ++ ([0x1C, 0x53, 0xBB, 0x6B] ++ szv)).length
        = pre.length + (4 + szv.length) := by
      rw [List.length_append, List.length_append]
      rfl
    rw [hlen] at hch0
    have hbuf : (pre ++ ([0x1C, 0x53, 0xBB, 0x6B] ++ szv)) ++ (genCuesData res adjust ++ R)
        = pre ++ (([0x1C, 0x53, 0xBB, 0x6B] ++ szv ++ genCuesData res adjust) ++ R) := by
      simp [List.append_assoc]
    rw [hbuf] at hch0
    simp only [shiftElem]
    rw [show pre.length + (4 + szv.length + (genCuesData res adjust).length)
      = pre.length + (4 + szv.length) + (genCuesData res adjust).length from by omega]
    rw [hch0]
    simp only [exceptBind_ok]
    rw [List.filter_eq_self.mpr (fun a ha => by
      have hid := blockElems_id res adjust res.clusters (pre.length + (4 + szv.length)) a ha
      simp [hid])]
    rw [← hlen]
    refine mapM_blockElems
      (pre ++ (([0x1C, 0x53, 0xBB, 0x6B] ++ szv ++ genCuesData res adjust) ++ R))
      res adjust _ (cueRel res adjust) res.clusters
      (pre ++ ([0x1C, 0x53, 0xBB, 0x6B] ++ szv)) R
      (by simp [genCuesData, List.append_assoc]) ?_
    intro c pre2 R2 hout2 hc
    obtain ⟨htc, hrel⟩ := hsm c hc
    have htl := @encodeUint_length_le c.timecode 7 (by norm_num) htc
    have hrl := @encodeUint_length_le (cueRel res adjust c) 7 (by norm_num) hrel
    simp only [cpElem, shiftElem]
    rw [hout2]
    have hch2 := parseChildren_blocks
      [(cueTimeBytes c, (⟨0xB3, ⟨1, (WebmFix.encodeUint c.timecode).length, false⟩, 0, 2,
          2 + (WebmFix.encodeUint c.timecode).length, 2⟩ : WebmFix.Elem)),
       (positionsBytes (cueRel res adjust c), (⟨0xB7, ⟨1,
          (cueTrackBytes ++ cuePosBytes (cueRel res adjust c)).length, false⟩, 0, 2,
          2 + (cueTrackBytes ++ cuePosBytes (cueRel res adjust c)).length, 2⟩ : WebmFix.Elem))]
      (pre2 ++ [0xBB,
        (cueTimeBytes c ++ positionsBytes (cueRel res adjust c)).length + 0x80]) R2
      (by
        intro p hp
        simp only [List.mem_cons, List.not_mem_nil, or_false] at hp
        rcases hp with rfl | rfl
        · exact goodBlock_small [0xB3] 0xB3 _ 1 (by decide) rfl (by decide) (by omega)
        · exact goodBlock_small [0xB7] 0xB7 _ 1 (by decide) rfl (by decide) (by
            simp only [cueTrackBytes, cuePosBytes, List.length_append, List.length_cons,
              List.length_nil]
            omega))
    simp only [List.map_cons, List.map_nil, List.flatten_cons, List.flatten_nil,
      List.append_nil] at hch2
    rw [show (pre2 ++ [0xBB,
        (cueTimeBytes c ++ positionsBytes (cueRel res adjust c)).length + 0x80]).length
      = pre2.length + 2 from by rw [List.length_append]; rfl] at hch2
    rw [show (pre2 ++ [0xBB,
          (cueTimeBytes c ++ positionsBytes (cueRel res adjust c)).length + 0x80])
        ++ ((cueTimeBytes c ++ positionsBytes (cueRel res adjust c)) ++ R2)
      = pre2 ++ (cuePointBytes res adjust c ++ R2) from by
        simp [cuePointBytes, List.append_assoc]] at hch2
    rw [show pre2.length + (2 + (cueTimeBytes c ++ positionsBytes (cueRel res adjust c)).length)
      = pre2.length + 2 + (cueTimeBytes c ++ positionsBytes (cueRel res adjust c)).length
      from by omega]
    rw [hch2]
    simp only [exceptBind_ok]
    have hfind2 : (blockElems (pre2.length + 2)
        [(cueTimeBytes c, (⟨0xB3, ⟨1, (WebmFix.encodeUint c.timecode).length, false⟩, 0, 2,
            2 + (WebmFix.encodeUint c.timecode).length, 2⟩ : WebmFix.Elem)),
         (positionsBytes (cueRel res adjust c), (⟨0xB7, ⟨1,
            (cueTrackBytes ++ cuePosBytes (cueRel res adjust c)).length, false⟩, 0, 2,
            2 + (cueTrackBytes ++ cuePosBytes (cueRel res adjust c)).length, 2⟩ :
            WebmFix.Elem))]).find? (fun x => x.id = 0xB7)
      = some (shiftElem (pre2.length + 2 + (cueTimeBytes c).length)
          (⟨0xB7, ⟨1, (cueTrackBytes ++ cuePosBytes (cueRel res adjust c)).length, false⟩, 0, 2,
            2 + (cueTrackBytes ++ cuePosBytes (cueRel res adjust c)).length, 2⟩ :
            WebmFix.Elem)) := rfl
    simp only [hfind2, shiftElem]
    have hch3 := parseChildren_blocks
      [(cueTrackBytes, (⟨0xF7, ⟨1, (WebmFix.encodeUint 1).length, false⟩, 0, 2,
          2 + (WebmFix.encodeUint 1).length, 2⟩ : WebmFix.Elem)),
       (cuePosBytes (cueRel res adjust c), (⟨0xF1, ⟨1,
          (WebmFix.encodeUint (cueRel res adjust c)).length, false⟩, 0, 2,
          2 + (WebmFix.encodeUint (cueRel res adjust c)).length, 2⟩ : WebmFix.Elem))]
      (pre2 ++ [0xBB,
          (cueTimeBytes c ++ positionsBytes (cueRel res adjust c)).length + 0x80]
        ++ cueTimeBytes c
        ++ [0xB7, (cueTrackBytes ++ cuePosBytes (cueRel res adjust c)).length + 0x80]) R2
      (by
        intro p hp
        simp only [List.mem_cons, List.not_mem_nil, or_false] at hp
        rcases hp with rfl | rfl
        · exact goodBlock_small [0xF7] 0xF7 _ 1 (by decide) rfl (by decide) (by decide)
        · exact goodBlock_small [0xF1] 0xF1 _ 1 (by decide) rfl (by decide) (by omega))
    simp only [List.map_cons, List.map_nil, List.flatten_cons, List.flatten_nil,
      List.append_nil] at hch3
    rw [show (pre2 ++ [0xBB,
          (cueTimeBytes c ++ positionsBytes (cueRel res adjust c)).length + 0x80]
        ++ cueTimeBytes c
        ++ [0xB7, (cueTrackBytes ++ cuePosBytes (cueRel res adjust c)).length + 0x80]).length
      = pre2.length + 2 + (cueTimeBytes c).length + 2 from by
        simp only [List.length_append, List.length_cons, List.length_nil]
        try omega] at hch3
    rw [show (pre2 ++ [0xBB,
            (cueTimeBytes c ++ positionsBytes (cueRel res adjust c)).length + 0x80]
          ++ cueTimeBytes c
          ++ [0xB7, (cueTrackBytes ++ cuePosBytes (cueRel res adjust c)).length + 0x80])
        ++ ((cueTrackBytes ++ cuePosBytes (cueRel res adjust c)) ++ R2)
      = pre2 ++ (cuePointBytes res adjust c ++ R2) from by
        simp [cuePointBytes, cueTimeBytes, positionsBytes, List.append_assoc]] at hch3
    rw [show pre2.length + 2 + (cueTimeBytes c).length
        + (2 + (cueTrackBytes ++ cuePosBytes (cueRel res adjust c)).length)
      = pre2.length + 2 + (cueTimeBytes c).length + 2
        + (cueTrackBytes ++ cuePosBytes (cueRel res adjust c)).length from by omega]
    rw [hch3]
    simp only [exceptBind_ok]
    have hfind3 : (blockElems (pre2.length + 2 + (cueTimeBytes c).length + 2)
        [(cueTrackBytes, (⟨0xF7, ⟨1, (WebmFix.encodeUint 1).length, false⟩, 0, 2,
            2 + (WebmFix.encodeUint 1).length, 2⟩ : WebmFix.Elem)),
         (cuePosBytes (cueRel res adjust c), (⟨0xF1, ⟨1,
            (WebmFix.encodeUint (cueRel res adjust c)).length, false⟩, 0, 2,
            2 + (WebmFix.encodeUint (cueRel res adjust c)).length, 2⟩ :
            WebmFix.Elem))]).find? (fun x => x.id = 0xF1)
      = some (shiftElem (pre2.length + 2 + (cueTimeBytes c).length + 2 + cueTrackBytes.length)
          (⟨0xF1, ⟨1, (WebmFix.encodeUint (cueRel res adjust c)).length, false⟩, 0, 2,
            2 + (WebmFix.encodeUint (cueRel res adjust c)).length, 2⟩ :
            WebmFix.Elem)) := rfl
    simp only [hfind3, shiftElem]
    rw [show pre2.length + 2 + (cueTimeBytes c).length + 2 + cueTrackBytes.length
        + (2 + (WebmFix.encodeUint (cueRel res adjust c)).length)
        - (pre2.length + 2 + (cueTimeBytes c).length + 2 + cueTrackBytes.length + 2)
      = (WebmFix.encodeUint (cueRel res adjust c)).length from by omega]
    have hru0 := readUInt_extend (readUInt_encodeUint (cueRel res adjust c)) R2
    have hru := readUInt_shift
      (pre2 ++ [0xBB, (cueTimeBytes c ++ positionsBytes (cueRel res adjust c)).length + 0x80]
        ++ cueTimeBytes c
        ++ [0xB7, (cueTrackBytes ++ cuePosBytes (cueRel res adjust c)).length + 0x80]
        ++ cueTrackBytes
        ++ [0xF1, (WebmFix.encodeUint (cueRel res adjust c)).length + 0x80])
      (WebmFix.encodeUint (cueRel res adjust c) ++ R2) 0
      (WebmFix.encodeUint (cueRel res adjust c)).length
    rw [Nat.add_zero, hru0] at hru
    rw [show (pre2 ++ [0xBB,
          (cueTimeBytes c ++ positionsBytes (cueRel res adjust c)).length + 0x80]
        ++ cueTimeBytes c
        ++ [0xB7, (cueTrackBytes ++ cuePosBytes (cueRel res adjust c)).length + 0x80]
        ++ cueTrackBytes
        ++ [0xF1, (WebmFix.encodeUint (cueRel res adjust c)).length + 0x80]).length
      = pre2.length + 2 + (cueTimeBytes c).length + 2 + cueTrackBytes.length + 2 from by
        simp only [List.length_append, List.length_cons, List.length_nil]
        try omega] at hru
    rw [show (pre2 ++ [0xBB,
            (cueTimeBytes c ++ positionsBytes (cueRel res adjust c)).length + 0x80]
          ++ cueTimeBytes c
          ++ [0xB7, (cueTrackBytes ++ cuePosBytes (cueRel res adjust c)).length + 0x80]
          ++ cueTrackBytes
          ++ [0xF1, (WebmFix.encodeUint (cueRel res adjust c)).length + 0x80])
        ++ (WebmFix.encodeUint (cueRel res adjust c) ++ R2)
      = pre2 ++ (cuePointBytes res adjust c ++ R2) from by
        simp [cuePointBytes, cueTimeBytes, positionsBytes, cueTrackBytes, cuePosBytes,
          List.append_assoc]] at hru
    exact hru

/-- Inversion of the existing-Info branch of `buildInfoPatch`. -/
theorem buildInfoPatch_shape (merged : List Nat) (res : WebmFix.ScanResult) (de : List Nat)
    (ie : WebmFix.Elem) (ip : WebmFix.Patch) (hinfo : res.info = some ie)
    (hip : WebmFix.buildInfoPatch merged res de = .ok ip) :
    ∃ D, ip = WebmFix.mkPatch ie.start ie.endPos D := by
  unfold WebmFix.buildInfoPatch at hip
  simp only [hinfo] at hip
  cases hsz : WebmFix.encodeVint
      ((WebmFix.infoPieces merged res.infoChildren ++ [de]).flatten).length 1 with
  | error e =>
    simp only [hsz, exceptBind_error] at hip
    exact absurd hip (by simp)
  | ok sz =>
    simp only [hsz, exceptBind_ok] at hip
    exact ⟨_, (Except.ok.inj hip).symm⟩

/-- C4 (amended): for every scannable buffer with a known Info element and a
nonempty cluster list whose cluster byte ranges all lie before the byte range
the Cues patch replaces (an existing Cues element past the clusters, or the
insertion point at the Segment or buffer end), the patched buffer's generated
Cues element decodes to exactly N CueClusterPosition values, one per cluster,
each computed with the cumulative-delta adjuster over the already-decided
Info patch, and each, added to the Segment's data start, is an offset in the
patched buffer at which the Cluster element id bytes `1F 43 B6 75` begin.
When the replaced range instead precedes a cluster — an existing Cues element
before the clusters — the adjuster, which is built over the Info patch only,
misses the Cues patch delta and the decoded positions point at stale offsets
(see the counterexample). -/
theorem c4_cue_positions (buffers : List (List Nat)) (durationMs : ℚ) (merged : List Nat)
    (res : WebmFix.ScanResult) (ie : WebmFix.Elem) (ip : WebmFix.Patch)
    (hm : merged = WebmFix.concatBytes buffers)
    (hscan : WebmFix.scanWebM merged = .ok res)
    (hinfo : res.info = some ie)
    (hip : WebmFix.buildInfoPatch merged res
      ([0x44, 0x89, 0x88] ++ WebmFix.encodeFloat64 (max 0 (durationMs / 1000))) = .ok ip)
    (hne : res.clusters ≠ [])
    (hsm : ∀ c ∈ res.clusters, c.timecode < 2 ^ 56 ∧
      cueRel res (WebmFix.adjuster [ip]) c < 2 ^ 56)
    (hN : (genCuesData res (WebmFix.adjuster [ip])).length < 2 ^ 56)
    (hnall : ∀ L < 9, (genCuesData res (WebmFix.adjuster [ip])).length ≠ 2 ^ (7 * L) - 1)
    (hseg : res.segment.dataOffset ≤ ie.start)
    (hie1 : ie.start ≤ ie.endPos)
    (hie2 : ie.endPos ≤ cuesPatchStart merged res)
    (hlt : ie.start < cuesPatchStart merged res)
    (hcp1 : cuesPatchStart merged res ≤ cuesPatchEnd merged res)
    (hcp2 : cuesPatchEnd merged res ≤ merged.length)
    (hcb : ∀ c ∈ res.clusters, ie.endPos ≤ c.start ∧
      c.start + 4 ≤ cuesPatchStart merged res)
    (hcid : ∀ c ∈ res.clusters,
      sliceBytes merged c.start (c.start + 4) = [0x1F, 0x43, 0xB6, 0x75]) :
    ∃ out cuesEl,
      WebmFix.patchWebM buffers durationMs = (some out, []) ∧
      WebmFix.parseElement out cuesEl.start = .ok (some cuesEl) ∧
      cuesEl.id = 0x1C53BB6B ∧
      WebmFix.decodeCuePositions out cuesEl
        = .ok (res.clusters.map (cueRel res (WebmFix.adjuster [ip]))) ∧
      (res.clusters.map (cueRel res (WebmFix.adjuster [ip]))).length
        = res.clusters.length ∧
      ∀ c ∈ res.clusters,
        sliceBytes out (res.segment.dataOffset + cueRel res (WebmFix.adjuster [ip]) c)
          (res.segment.dataOffset + cueRel res (WebmFix.adjuster [ip]) c + 4)
          = [0x1F, 0x43, 0xB6, 0x75] := by
  subst hm
  have hmz : ¬ (WebmFix.concatBytes buffers).length = 0 := by
    intro h0
    rw [List.length_eq_zero] at h0
    rw [h0, scanWebM_nil] at hscan
    exact absurd hscan (by simp)
  obtain ⟨D, hipeq⟩ := buildInfoPatch_shape _ res _ ie ip hinfo hip
  subst hipeq
  have hips : (WebmFix.mkPatch ie.start ie.endPos D).start = ie.start := rfl
  have hipe : (WebmFix.mkPatch ie.start ie.endPos D).endPos = ie.endPos := rfl
  have hipd : (WebmFix.mkPatch ie.start ie.endPos D).data = D := rfl
  have hdelta : (WebmFix.mkPatch ie.start ie.endPos D).delta
      = (D.length : Int) - ((ie.endPos : Int) - (ie.start : Int)) := rfl
  obtain ⟨L, szv, hszenc, hszlenv, hL1, hL8, hvL, hszread, hidread⟩ :=
    encodeVint_readVint
      (genCuesData res (WebmFix.adjuster [WebmFix.mkPatch ie.start ie.endPos D])).length hN
  rw [decide_eq_false (hnall L (by omega))] at hszread
  have hieb : ie.start ≤ (WebmFix.concatBytes buffers).length := by omega
  have hee : WebmFix.encodeElement 0x1C53BB6B
      (res.clusters.map
        (cuePointBytes res (WebmFix.adjuster [WebmFix.mkPatch ie.start ie.endPos D]))).flatten
      = .ok (WebmFix.idToBytes 0x1C53BB6B ++ szv
          ++ genCuesData res (WebmFix.adjuster [WebmFix.mkPatch ie.start ie.endPos D])) := by
    unfold WebmFix.encodeElement
    rw [show (res.clusters.map
        (cuePointBytes res (WebmFix.adjuster [WebmFix.mkPatch ie.start ie.endPos D]))).flatten
      = genCuesData res (WebmFix.adjuster [WebmFix.mkPatch ie.start ie.endPos D]) from rfl]
    rw [hszenc]
    simp only [exceptBind_ok]
  have hcuesp : WebmFix.buildCuesPatch (WebmFix.concatBytes buffers) res
      (res.clusters.map
        (cuePointBytes res (WebmFix.adjuster [WebmFix.mkPatch ie.start ie.endPos D])))
      = .ok (some (WebmFix.mkPatch (cuesPatchStart (WebmFix.concatBytes buffers) res)
          (cuesPatchEnd (WebmFix.concatBytes buffers) res)
          (WebmFix.idToBytes 0x1C53BB6B ++ szv
            ++ genCuesData res (WebmFix.adjuster [WebmFix.mkPatch ie.start ie.endPos D])))) := by
    unfold WebmFix.buildCuesPatch
    rw [if_neg (show ¬ res.clusters.map
        (cuePointBytes res (WebmFix.adjuster [WebmFix.mkPatch ie.start ie.endPos D])) = [] from by
      intro hcps
      exact hne (by simpa using hcps))]
    rw [hee]
    simp only [exceptBind_ok]
    cases hcues : res.cues with
    | some cel => simp only [hcues, cuesPatchStart, cuesPatchEnd]
    | none => simp only [hcues, cuesPatchStart, cuesPatchEnd]
  have hbcp := buildCuePoints_eq res
    (WebmFix.adjuster [WebmFix.mkPatch ie.start ie.endPos D]) hsm
  have hbody : WebmFix.patchBody buffers durationMs
      = .ok (WebmFix.applyPatches (WebmFix.concatBytes buffers)
          ([WebmFix.mkPatch ie.start ie.endPos D]
            ++ [WebmFix.mkPatch (cuesPatchStart (WebmFix.concatBytes buffers) res)
              (cuesPatchEnd (WebmFix.concatBytes buffers) res)
              (WebmFix.idToBytes 0x1C53BB6B ++ szv
                ++ genCuesData res
                    (WebmFix.adjuster [WebmFix.mkPatch ie.start ie.endPos D]))]), []) := by
    unfold WebmFix.patchBody
    rw [if_neg hmz]
    simp only [hscan, exceptBind_ok]
    rw [durationElem_ok (max 0 (durationMs / 1000))]
    simp only [exceptBind_ok]
    simp only [hip, exceptBind_ok]
    simp only [hbcp, exceptBind_ok]
    simp only [hcuesp, exceptBind_ok]
  have happ : WebmFix.applyPatches (WebmFix.concatBytes buffers)
      ([WebmFix.mkPatch ie.start ie.endPos D]
        ++ [WebmFix.mkPatch (cuesPatchStart (WebmFix.concatBytes buffers) res)
          (cuesPatchEnd (WebmFix.concatBytes buffers) res)
          (WebmFix.idToBytes 0x1C53BB6B ++ szv
            ++ genCuesData res (WebmFix.adjuster [WebmFix.mkPatch ie.start ie.endPos D]))])
      = (WebmFix.concatBytes buffers).take ie.start ++ D
        ++ sliceBytes (WebmFix.concatBytes buffers) ie.endPos
            (cuesPatchStart (WebmFix.concatBytes buffers) res)
        ++ (WebmFix.idToBytes 0x1C53BB6B ++ szv
            ++ genCuesData res (WebmFix.adjuster [WebmFix.mkPatch ie.start ie.endPos D]))
        ++ (WebmFix.concatBytes buffers).drop
            (cuesPatchEnd (WebmFix.concatBytes buffers) res) := by
    rw [show [WebmFix.mkPatch ie.start ie.endPos D]
        ++ [WebmFix.mkPatch (cuesPatchStart (WebmFix.concatBytes buffers) res)
          (cuesPatchEnd (WebmFix.concatBytes buffers) res)
          (WebmFix.idToBytes 0x1C53BB6B ++ szv
            ++ genCuesData res (WebmFix.adjuster [WebmFix.mkPatch ie.start ie.endPos D]))]
      = [WebmFix.mkPatch ie.start ie.endPos D,
          WebmFix.mkPatch (cuesPatchStart (WebmFix.concatBytes buffers) res)
            (cuesPatchEnd (WebmFix.concatBytes buffers) res)
            (WebmFix.idToBytes 0x1C53BB6B ++ szv
              ++ genCuesData res
                  (WebmFix.adjuster [WebmFix.mkPatch ie.start ie.endPos D]))] from rfl]
    rw [applyPatches_two _ _ _ (by
      show ¬ cuesPatchStart (WebmFix.concatBytes buffers) res ≤ ie.start
      omega)]
    rw [spliceP_two_layout _ _ _ (by rw [hips, hipe]; exact hie1)
      (by rw [hipe]; exact hie2) (by
        show cuesPatchStart (WebmFix.concatBytes buffers) res
          ≤ (WebmFix.concatBytes buffers).length
        omega)]
    rfl
  have hout : WebmFix.patchWebM buffers durationMs
      = (some ((WebmFix.concatBytes buffers).take ie.start ++ D
          ++ sliceBytes (WebmFix.concatBytes buffers) ie.endPos
              (cuesPatchStart (WebmFix.concatBytes buffers) res)
          ++ (WebmFix.idToBytes 0x1C53BB6B ++ szv
              ++ genCuesData res (WebmFix.adjuster [WebmFix.mkPatch ie.start ie.endPos D]))
          ++ (WebmFix.concatBytes buffers).drop
              (cuesPatchEnd (WebmFix.concatBytes buffers) res)), []) := by
    unfold WebmFix.patchWebM
    rw [hbody, happ]
  have hdecomp : (WebmFix.concatBytes buffers).take ie.start ++ D
      ++ sliceBytes (WebmFix.concatBytes buffers) ie.endPos
          (cuesPatchStart (WebmFix.concatBytes buffers) res)
      ++ (WebmFix.idToBytes 0x1C53BB6B ++ szv
          ++ genCuesData res (WebmFix.adjuster [WebmFix.mkPatch ie.start ie.endPos D]))
      ++ (WebmFix.concatBytes buffers).drop
          (cuesPatchEnd (WebmFix.concatBytes buffers) res)
    = ((WebmFix.concatBytes buffers).take ie.start ++ D
        ++ sliceBytes (WebmFix.concatBytes buffers) ie.endPos
            (cuesPatchStart (WebmFix.concatBytes buffers) res))
      ++ (([0x1C, 0x53, 0xBB, 0x6B] ++ szv
          ++ genCuesData res (WebmFix.adjuster [WebmFix.mkPatch ie.start ie.endPos D]))
        ++ (WebmFix.concatBytes buffers).drop
            (cuesPatchEnd (WebmFix.concatBytes buffers) res)) := by
    rw [show WebmFix.idToBytes 0x1C53BB6B = [0x1C, 0x53, 0xBB, 0x6B] from rfl]
    simp [List.append_assoc]
  obtain ⟨hpe, hdc⟩ := decodeCuePositions_generated res
    (WebmFix.adjuster [WebmFix.mkPatch ie.start ie.endPos D])
    ((WebmFix.concatBytes buffers).take ie.start ++ D
      ++ sliceBytes (WebmFix.concatBytes buffers) ie.endPos
          (cuesPatchStart (WebmFix.concatBytes buffers) res))
    ((WebmFix.concatBytes buffers).drop (cuesPatchEnd (WebmFix.concatBytes buffers) res))
    szv ⟨L, (genCuesData res
      (WebmFix.adjuster [WebmFix.mkPatch ie.start ie.endPos D])).length, false⟩
    hsm hszread (by rw [hszlenv]) rfl rfl
  refine ⟨_, shiftElem ((WebmFix.concatBytes buffers).take ie.start ++ D
      ++ sliceBytes (WebmFix.concatBytes buffers) ie.endPos
          (cuesPatchStart (WebmFix.concatBytes buffers) res)).length
      ⟨0x1C53BB6B, ⟨L, (genCuesData res
          (WebmFix.adjuster [WebmFix.mkPatch ie.start ie.endPos D])).length, false⟩, 0,
        4 + szv.length,
        4 + szv.length + (genCuesData res
          (WebmFix.adjuster [WebmFix.mkPatch ie.start ie.endPos D])).length,
        4 + szv.length⟩,
    hout, ?_, rfl, ?_, by simp, ?_⟩
  · rw [hdecomp]
    exact hpe
  · rw [hdecomp]
    exact hdc
  · intro c hc
    obtain ⟨hcb1, hcb2⟩ := hcb c hc
    have hadj : WebmFix.adjuster [WebmFix.mkPatch ie.start ie.endPos D] c.start
        = (c.start : Int) + (WebmFix.mkPatch ie.start ie.endPos D).delta := by
      show (if (WebmFix.mkPatch ie.start ie.endPos D).start ≤ c.start
        then (c.start : Int) + (WebmFix.mkPatch ie.start ie.endPos D).delta
        else (c.start : Int)) = _
      rw [if_pos (show (WebmFix.mkPatch ie.start ie.endPos D).start ≤ c.start from by
        rw [hips]; omega)]
    have hrelpos : res.segment.dataOffset
        + cueRel res (WebmFix.adjuster [WebmFix.mkPatch ie.start ie.endPos D]) c
        = ie.start + D.length + (c.start - ie.endPos) := by
      unfold cueRel
      rw [hadj, hdelta]
      omega
    have hTlen : ((WebmFix.concatBytes buffers).take ie.start ++ D).length
        = ie.start + D.length := by
      rw [List.length_append, List.length_take]
      omega
    have hMlen : (sliceBytes (WebmFix.concatBytes buffers) ie.endPos
        (cuesPatchStart (WebmFix.concatBytes buffers) res)).length
        = cuesPatchStart (WebmFix.concatBytes buffers) res - ie.endPos :=
      sliceBytes_length hie2 (by omega)
    rw [show res.segment.dataOffset
        + cueRel res (WebmFix.adjuster [WebmFix.mkPatch ie.start ie.endPos D]) c
      = ((WebmFix.concatBytes buffers).take ie.start ++ D).length + (c.start - ie.endPos)
      from by rw [hTlen]; omega]
    rw [show ((WebmFix.concatBytes buffers).take ie.start ++ D).length
        + (c.start - ie.endPos) + 4
      = ((WebmFix.concatBytes buffers).take ie.start ++ D).length + (c.start - ie.endPos + 4)
      from by omega]
    rw [show (WebmFix.concatBytes buffers).take ie.start ++ D
        ++ sliceBytes (WebmFix.concatBytes buffers) ie.endPos
            (cuesPatchStart (WebmFix.concatBytes buffers) res)
        ++ (WebmFix.idToBytes 0x1C53BB6B ++ szv
            ++ genCuesData res (WebmFix.adjuster [WebmFix.mkPatch ie.start ie.endPos D]))
        ++ (WebmFix.concatBytes buffers).drop
            (cuesPatchEnd (WebmFix.concatBytes buffers) res)
      = ((WebmFix.concatBytes buffers).take ie.start ++ D)
        ++ (sliceBytes (WebmFix.concatBytes buffers) ie.endPos
              (cuesPatchStart (WebmFix.concatBytes buffers) res)
            ++ ((WebmFix.idToBytes 0x1C53BB6B ++ szv
                ++ genCuesData res
                    (WebmFix.adjuster [WebmFix.mkPatch ie.start ie.endPos D]))
              ++ (WebmFix.concatBytes buffers).drop
                  (cuesPatchEnd (WebmFix.concatBytes buffers) res)))
      from by simp [List.append_assoc]]
    rw [sliceBytes_append_shift]
    rw [sliceBytes_append_left _ _ _ _ (by rw [hMlen]; omega)]
    rw [sliceBytes_slice _ _ _ _ _ (by omega)]
    rw [show ie.endPos + (c.start - ie.endPos) = c.start from by omega,
      show ie.endPos + (c.start - ie.endPos + 4) = c.start + 4 from by omega]
    exact hcid c hc

/-- The patched output for `bufCuesBeforeCluster`. -/
def c4Out : List Nat := ((WebmFix.patchWebM [bufCuesBeforeCluster] 4200).1).getD []

/-- C4 counterexample: `bufCuesBeforeCluster` carries its pre-existing Cues
element *before* its one cluster.  Patching replaces that Cues range with the
generated Cues element, shifting the cluster by the Cues patch delta — but the
adjuster used for the cue positions is built over the Info patch only, so the
decoded CueClusterPosition (21), added to the Segment data start (17), gives
offset 38 in the patched buffer, which holds generated-cues bytes
`BB 8B B3 81`, not the Cluster id; the cluster actually begins at offset 51.
The claimed property fails on this well-formed input. -/
theorem c4_counterexample :
    (WebmFix.patchWebM [bufCuesBeforeCluster] 4200).1 = some c4Out ∧
    (WebmFix.patchWebM [bufCuesBeforeCluster] 4200).2 = [] ∧
    WebmFix.scanWebM bufCuesBeforeCluster
      = .ok ⟨⟨0x18538067, ⟨1, 25, false⟩, 12, 17, 42, 5⟩,
          some ⟨0x1549A966, ⟨1, 7, false⟩, 17, 22, 29, 5⟩,
          [⟨0x4489, ⟨1, 4, false⟩, 22, 25, 29, 3⟩],
          some ⟨0x1C53BB6B, ⟨1, 0, false⟩, 29, 34, 34, 5⟩,
          [⟨34, 5⟩], 1000000⟩ ∧
    WebmFix.parseElement c4Out 33
      = .ok (some ⟨0x1C53BB6B, ⟨1, 13, false⟩, 33, 38, 51, 5⟩) ∧
    WebmFix.decodeCuePositions c4Out ⟨0x1C53BB6B, ⟨1, 13, false⟩, 33, 38, 51, 5⟩
      = .ok [21] ∧
    sliceBytes c4Out (17 + 21) (17 + 21 + 4) = [0xBB, 0x8B, 0xB3, 0x81] ∧
    sliceBytes c4Out (17 + 21) (17 + 21 + 4) ≠ [0x1F, 0x43, 0xB6, 0x75] ∧
    sliceBytes c4Out 51 55 = [0x1F, 0x43, 0xB6, 0x75] := by
  refine ⟨by decide, by decide, by decide, by decide, by decide, by decide, by decide,
    by decide⟩

/-- The scan result of `bufInfoCluster`. -/
def resInfoCluster : WebmFix.ScanResult :=
  ⟨⟨0x18538067, ⟨1, 20, false⟩, 12, 17, 37, 5⟩,
   some ⟨0x1549A966, ⟨1, 7, false⟩, 17, 22, 29, 5⟩,
   [⟨0x4489, ⟨1, 4, false⟩, 22, 25, 29, 3⟩],
   none, [⟨29, 5⟩], 1000000⟩

/-- The Info patch the Patcher builds for `bufInfoCluster` at 4200 ms. -/
def ipInfoCluster : WebmFix.Patch :=
  WebmFix.mkPatch 17 29 [0x15, 0x49, 0xA9, 0x66, 0x8B, 0x44, 0x89, 0x88,
    0x40, 0x10, 0xCC, 0xCC, 0xCC, 0xCC, 0xCC, 0xCD]

theorem c4_witness :
    ∃ out cuesEl,
      WebmFix.patchWebM [bufInfoCluster] 4200 = (some out, []) ∧
      WebmFix.parseElement out cuesEl.start = .ok (some cuesEl) ∧
      cuesEl.id = 0x1C53BB6B ∧
      WebmFix.decodeCuePositions out cuesEl
        = .ok (resInfoCluster.clusters.map
            (cueRel resInfoCluster (WebmFix.adjuster [ipInfoCluster]))) ∧
      (resInfoCluster.clusters.map
          (cueRel resInfoCluster (WebmFix.adjuster [ipInfoCluster]))).length
        = resInfoCluster.clusters.length ∧
      ∀ c ∈ resInfoCluster.clusters,
        sliceBytes out (resInfoCluster.segment.dataOffset
            + cueRel resInfoCluster (WebmFix.adjuster [ipInfoCluster]) c)
          (resInfoCluster.segment.dataOffset
            + cueRel resInfoCluster (WebmFix.adjuster [ipInfoCluster]) c + 4)
          = [0x1F, 0x43, 0xB6, 0x75] :=
  c4_cue_positions [bufInfoCluster] 4200 (WebmFix.concatBytes [bufInfoCluster])
    resInfoCluster ⟨0x1549A966, ⟨1, 7, false⟩, 17, 22, 29, 5⟩ ipInfoCluster
    rfl (by decide) (by decide) (by decide) (by decide) (by decide) (by decide)
    (by decide) (by decide) (by decide) (by decide) (by decide) (by decide)
    (by decide) (by decide) (by decide)
